import Mathlib

/-!
Verification of the AgenticLoop orchestration service against its
natural-language specification.

The definitions below are shallow embeddings of the Go source:

* `AgenticLoop.Store` — the run store (`RunStore.Create`,
  `RunStore.UpdateStatus` from `internal/store`), with the SQL
  `COALESCE` update semantics made explicit and the read-before-insert
  creation path split at its interleaving point.
* `AgenticLoop.Runner` — the bounded enqueue of `Runner.Enqueue`.
* `AgenticLoop.Loop` — the staged executor's iteration control flow
  (`Loop.Execute` in internal/agent/loop.go), in particular the
  completion gate.
* `AgenticLoop.Ductile` — `Client.PollJob` exponential backoff.
* `AgenticLoop.Tools` — workspace tool path sanitization, the
  `workspace_edit` apply gate and `WorkspaceFileTool.InvokableRun`.
* `AgenticLoop.Api` — the SSE event fingerprints.
* `AgenticLoop.MergeState` — the reflect-stage `mergeStateJSON`.

Machine integers are modelled as `Int`/`Nat` (Go `time.Duration` is an
`int64` nanosecond count), SQL `NULL`-able columns as `Option`,
fallible Go functions as `Except`.  The file is laid out with all
definitions first and all theorems afterwards.
-/

namespace AgenticLoop

namespace Util

/-- The ASCII whitespace recognized by Go's `strings.TrimSpace` (the
Unicode-only spaces do not occur in this code's inputs). -/
def isSpaceChar (c : Char) : Bool :=
  c = ' ' || c = '\t' || c = '\n' || c = '\r' || c = '\x0b' || c = '\x0c'

/-- `strings.TrimSpace`: drop leading and trailing whitespace. -/
def goTrim (s : String) : String :=
  String.mk (((s.data.dropWhile isSpaceChar).reverse.dropWhile isSpaceChar).reverse)

end Util

/-- Decidable equality on `Except String String` results, used to
evaluate embedded functions at concrete inputs. -/
instance : DecidableEq (Except String String) := fun a b =>
  match a, b with
  | Except.ok x, Except.ok y =>
      if h : x = y then isTrue (by rw [h]) else isFalse (by intro hc; cases hc; exact h rfl)
  | Except.error x, Except.error y =>
      if h : x = y then isTrue (by rw [h]) else isFalse (by intro hc; cases hc; exact h rfl)
  | Except.ok _, Except.error _ => isFalse (by intro hc; cases hc)
  | Except.error _, Except.ok _ => isFalse (by intro hc; cases hc)

namespace Store

/-- Run lifecycle states, from `internal/store` (`RunStatusQueued`,
`RunStatusRunning`, `RunStatusDone`, `RunStatusFailed`). -/
inductive RunStatus where
  | queued
  | running
  | done
  | failed
deriving DecidableEq, Repr

/-- The mutable columns of one `runs` row touched by
`RunStore.UpdateStatus`.  Timestamps are the stored RFC 3339 strings. -/
structure RunRecord where
  status : RunStatus
  summary : Option String
  error : Option String
  startedAt : Option String
  completedAt : Option String
  updatedAt : String
deriving DecidableEq, Repr

/-- SQL `COALESCE(p, old)`: the bind parameter when non-NULL, else the
current column value. -/
def coalesce (p old : Option String) : Option String :=
  match p with
  | some v => some v
  | none => old

/-- Shallow embedding of `RunStore.UpdateStatus`
(internal/store run store, cited at factory.go lines 177-200): the
`started_at` parameter is `now` exactly when the new status is
`running`, the `completed_at` parameter is `now` exactly on a terminal
status, and every nullable column is written through
`COALESCE(param, column)`; `updated_at` is always overwritten. -/
def updateStatus (r : RunRecord) (status : RunStatus)
    (summary errMsg : Option String) (now : String) : RunRecord :=
  let startedParam : Option String :=
    if status = RunStatus.running then some now else none
  let completedParam : Option String :=
    if status = RunStatus.done ∨ status = RunStatus.failed then some now else none
  { status := status
    summary := coalesce summary r.summary
    error := coalesce errMsg r.error
    startedAt := coalesce startedParam r.startedAt
    completedAt := coalesce completedParam r.completedAt
    updatedAt := now }

/-- A `runs` row as seen by `RunStore.Create`: its id and the optional
`wake_id` idempotency key (`UNIQUE(wake_id)` in the schema). -/
structure RunRow where
  id : String
  wakeId : Option String
deriving DecidableEq, Repr

/-- `RunStore.GetByWakeID`: the row holding the given wake id, if any. -/
def getByWakeID (tbl : List RunRow) (w : String) : Option RunRow :=
  tbl.find? (fun r => r.wakeId = some w)

/-- The `INSERT INTO runs ...` statement under the schema's
`UNIQUE(wake_id)` constraint: inserting a duplicate non-NULL wake id
fails with a constraint error. -/
def insertRun (tbl : List RunRow) (row : RunRow) : Except String (List RunRow) :=
  match row.wakeId with
  | some w =>
      if (getByWakeID tbl w).isSome then
        Except.error "insert run: UNIQUE constraint failed: runs.wake_id"
      else
        Except.ok (tbl ++ [row])
  | none => Except.ok (tbl ++ [row])

/-- Shallow embedding of `RunStore.Create` (factory.go lines 113-145).
The function performs a read (`GetByWakeID`) and then a separate
`INSERT`; under concurrent callers another `Create` can commit between
the two, so the table at the read (`tableAtCheck`) and the table at the
insert (`tableAtInsert`) are distinct parameters.  A sequential call
passes the same table twice.  Returns the run row, the `existing` flag
and the table after the insert. -/
def runStoreCreate (tableAtCheck tableAtInsert : List RunRow)
    (wakeId : Option String) (newId : String) :
    Except String (RunRow × Bool × List RunRow) :=
  match wakeId with
  | some w =>
      match getByWakeID tableAtCheck w with
      | some existing => Except.ok (existing, true, tableAtInsert)
      | none =>
          let row : RunRow := { id := newId, wakeId := some w }
          (insertRun tableAtInsert row).map (fun t => (row, false, t))
  | none =>
      let row : RunRow := { id := newId, wakeId := none }
      (insertRun tableAtInsert row).map (fun t => (row, false, t))

end Store

namespace Runner

/-- Result of `Runner.Enqueue` (`nil` or `ErrQueueFull`). -/
inductive EnqueueResult where
  | enqueued
  | queueFull
deriving DecidableEq, Repr

/-- Shallow embedding of `Runner.Enqueue` (runner.go, the
backpressure-controlled version).  `queueLen`/`capacity` describe the
buffered channel at the call, `timeoutNs` is `cfg.EnqueueTimeout` in
nanoseconds, and `roomAtNs t` says a queue slot frees `t` nanoseconds
after the call (`none`: the queue stays full).  Returns the result and
the time the caller was blocked:

* room available: the buffered channel send succeeds immediately;
* `timeout ≤ 0`: the `select` with a `default` branch fails fast;
* otherwise the `select` races the send against `timer.C`; the send
  wins exactly when a slot frees strictly before the timer fires
  (ties are resolved for the timer here), and the caller never waits
  past the timer. -/
def enqueue (queueLen capacity : Nat) (timeoutNs : Int)
    (roomAtNs : Option Nat) : EnqueueResult × Int :=
  if queueLen < capacity then
    (EnqueueResult.enqueued, 0)
  else if timeoutNs ≤ 0 then
    (EnqueueResult.queueFull, 0)
  else
    match roomAtNs with
    | some t =>
        if (t : Int) < timeoutNs then (EnqueueResult.enqueued, (t : Int))
        else (EnqueueResult.queueFull, timeoutNs)
    | none => (EnqueueResult.queueFull, timeoutNs)

end Runner

namespace Loop

/-- The reflect decision fields consumed by the iteration control flow
of `Loop.Execute` (`reflectDecision` in loop.go). -/
structure ReflectDecision where
  nextStage : String
  legacyDone : Bool
  summary : String
  nextFocus : String
deriving DecidableEq, Repr

/-- `reflectDecision.resolvedNextStage` from loop.go: an explicit
`next_stage` of `plan`/`act`/`done` wins; otherwise the legacy `done`
boolean maps to `done`, and everything else to `plan`. -/
def resolvedNextStage (d : ReflectDecision) : String :=
  if d.nextStage = "plan" ∨ d.nextStage = "act" ∨ d.nextStage = "done" then
    d.nextStage
  else if d.legacyDone then "done"
  else "plan"

/-- One iteration's observable outcome: what the Act stage reported
(`actStageResult.SuccessReported` / `.ReportedSummary` / `.Summary`)
and the parsed reflect decision. -/
structure IterOutcome where
  actSuccessReported : Bool
  actReportedSummary : String
  actSummary : String
  decision : ReflectDecision
deriving DecidableEq, Repr

/-- The `stageState` fields that drive the iteration control flow of
`Loop.Execute` (the prompt-rendering fields are omitted: they do not
feed the loop's branching). -/
structure LoopState where
  successReported : Bool
  successSummary : String
  act : String
  nextFocus : String
  nextStage : String
deriving DecidableEq, Repr

/-- The corrective `next_focus` installed by the completion gate
(loop.go line 237). -/
def gateFocus : String :=
  "Call report_success with summary and evidence before declaring done."

/-- State update after the Act stage (loop.go lines 180-186):
`state.Act` takes the act summary; a successful `report_success` call
sets `SuccessReported` stickily and records a non-empty reported
summary. -/
def afterAct (st : LoopState) (o : IterOutcome) : LoopState :=
  let st1 := { st with act := o.actSummary }
  if o.actSuccessReported then
    { st1 with
      successReported := true
      successSummary :=
        if o.actReportedSummary ≠ "" then o.actReportedSummary
        else st1.successSummary }
  else st1

/-- The state rewrite performed by the completion gate (loop.go lines
236-240): override the next stage to `plan` and install the corrective
focus. -/
def gateState (st : LoopState) : LoopState :=
  { st with nextFocus := gateFocus, nextStage := "plan" }

/-- Terminal summary selection on the true-`done` path (loop.go lines
243-249): first non-empty of the decision summary, the reported
success summary and the last act summary, each trimmed. -/
def doneSummary (d : ReflectDecision) (st : LoopState) : String :=
  let s1 := Util.goTrim d.summary
  if s1 ≠ "" then s1
  else
    let s2 := Util.goTrim st.successSummary
    if s2 ≠ "" then s2
    else Util.goTrim st.act

/-- How a run ends in `Loop.Execute`: `UpdateStatus(done, summary)` or
`failRun(reason)`. -/
inductive RunOutcome where
  | done (summary : String)
  | failed (reason : String)
deriving DecidableEq, Repr

/-- Shallow embedding of the iteration loop of `Loop.Execute` (loop.go
lines 118-271) on its success path: one list element per remaining
iteration (`maxLoops` many at the start).  Each iteration runs Act and
Reflect, applies the reflect decision, and either gates, terminates
with `done`, or continues; exhausting the list is the `maxLoops`
exhaustion path with its two distinct failure reasons.  Stage skipping
(frame/plan) only affects prompts, not this control flow, because Act
and Reflect run in every iteration. -/
def execLoop : List IterOutcome → LoopState → RunOutcome
  | [], st =>
      if ¬ st.successReported then
        RunOutcome.failed "max loops exhausted without required report_success call"
      else
        RunOutcome.failed "max loops exhausted without completion"
  | o :: rest, st =>
      let st1 := afterAct st o
      if resolvedNextStage o.decision = "done" then
        if ¬ st1.successReported then
          execLoop rest (gateState st1)
        else
          RunOutcome.done (doneSummary o.decision st1)
      else
        execLoop rest
          { st1 with nextFocus := o.decision.nextFocus,
                     nextStage := resolvedNextStage o.decision }

/-- The loop state at entry of the first iteration (`Execute` sets
`nextStage = "frame"` and a zero-valued `stageState`). -/
def initialState : LoopState :=
  { successReported := false
    successSummary := ""
    act := ""
    nextFocus := ""
    nextStage := "frame" }

end Loop

namespace Ductile

/-- The terminal job states of the plugin gateway
(`"succeeded", "failed", "timed_out", "dead"` in client.go). -/
def terminalStatuses : List String := ["succeeded", "failed", "timed_out", "dead"]

/-- Whether a job status ends polling (the `switch` in `PollJob`). -/
def isTerminal (s : String) : Bool := terminalStatuses.contains s

/-- `maxAttempts` in `Client.PollJob`. -/
def maxAttempts : Nat := 60

/-- `maxBackoff = 30 * time.Second` in nanoseconds. -/
def maxBackoffNs : Int := 30000000000

/-- The outcome of a `PollJob` call: the terminal status or the
exhaustion error, the number of `GetJob` calls made, and the sequence
of sleep durations in order. -/
structure PollResult where
  outcome : Except String String
  polls : Nat
  waits : List Int
deriving Repr

/-- Shallow embedding of the loop body of `Client.PollJob` (client.go
lines 90-118): `statusAt k` is the job status returned by the `k`-th
`GetJob` call; each non-terminal poll sleeps the current interval and
then doubles it, capping at `maxBackoffNs`.  `fuel` is the number of
attempts left. -/
def pollJobAux (jobID : String) (statusAt : Nat → String) :
    Nat → Nat → Int → PollResult
  | _, 0, _ =>
      { outcome := Except.error
          ("poll job " ++ jobID ++ ": max attempts (60) exhausted")
        polls := 0
        waits := [] }
  | attempt, fuel + 1, intervalNs =>
      if isTerminal (statusAt attempt) then
        { outcome := Except.ok (statusAt attempt), polls := 1, waits := [] }
      else
        let next := pollJobAux jobID statusAt (attempt + 1) fuel
          (min (intervalNs * 2) maxBackoffNs)
        { outcome := next.outcome
          polls := next.polls + 1
          waits := intervalNs :: next.waits }

/-- `Client.PollJob`: start at attempt 0 with the caller's interval and
at most `maxAttempts` attempts. -/
def pollJob (jobID : String) (statusAt : Nat → String) (intervalNs : Int) :
    PollResult :=
  pollJobAux jobID statusAt 0 maxAttempts intervalNs

/-- The backoff sequence described by the spec: "exponential backoff
starting at the caller interval, doubled per attempt, capped at 30 s".
Stated from the spec's words, to be compared with the wait sequence
produced by `pollJob`. -/
def specBackoff (intervalNs : Int) : Nat → Int
  | 0 => intervalNs
  | j + 1 => min (specBackoff intervalNs j * 2) maxBackoffNs

end Ductile

/-- C5 counterexample input: a run row whose `started_at` was set by an
earlier transition to `running`. -/
def startedRun : Store.RunRecord :=
  { status := Store.RunStatus.running
    summary := none
    error := none
    startedAt := some "2026-02-20T10:00:00.000000001Z"
    completedAt := none
    updatedAt := "2026-02-20T10:00:00.000000001Z" }

/-- The row the race winner inserts in the C1 failing schedule. -/
def winnerRow : Store.RunRow := { id := "id-A", wakeId := some "w2" }

/-- C3 witness input: a reflect decision that resolves to `done`
produced by an iteration whose Act stage never called
`report_success`. -/
def gatedIter : Loop.IterOutcome :=
  { actSuccessReported := false
    actReportedSummary := ""
    actSummary := "poked around"
    decision :=
      { nextStage := "done", legacyDone := false, summary := "premature",
        nextFocus := "" } }

/-- C8 witness oracle: a gateway job that never leaves `queued`. -/
def alwaysQueued : Nat → String := fun _ => "queued"

/-- C8 witness oracle: a gateway job that succeeds on the third poll. -/
def succeedsAtTwo : Nat → String := fun k => if k = 2 then "succeeded" else "queued"

namespace SHA256

/-- `2^32`, the word modulus of SHA-256. -/
def pow32 : Nat := 4294967296

/-- 32-bit rotate right. -/
def rotr (n x : Nat) : Nat := ((x >>> n) ||| (x <<< (32 - n))) % pow32

/-- The SHA-256 `Ch` function. -/
def choice (x y z : Nat) : Nat :=
  Nat.xor (Nat.land x y) (Nat.land (Nat.xor x 4294967295) z)

/-- The SHA-256 `Maj` function. -/
def majority (x y z : Nat) : Nat :=
  Nat.xor (Nat.xor (Nat.land x y) (Nat.land x z)) (Nat.land y z)

/-- Σ₀. -/
def bigSigma0 (x : Nat) : Nat := Nat.xor (Nat.xor (rotr 2 x) (rotr 13 x)) (rotr 22 x)

/-- Σ₁. -/
def bigSigma1 (x : Nat) : Nat := Nat.xor (Nat.xor (rotr 6 x) (rotr 11 x)) (rotr 25 x)

/-- σ₀. -/
def smallSigma0 (x : Nat) : Nat := Nat.xor (Nat.xor (rotr 7 x) (rotr 18 x)) (x >>> 3)

/-- σ₁. -/
def smallSigma1 (x : Nat) : Nat := Nat.xor (Nat.xor (rotr 17 x) (rotr 19 x)) (x >>> 10)

/-- The 64 SHA-256 round constants, in decimal. -/
def roundK : List Nat :=
  [1116352408, 1899447441, 3049323471, 3921009573, 961987163,
   1508970993, 2453635748, 2870763221, 3624381080, 310598401,
   607225278, 1426881987, 1925078388, 2162078206, 2614888103,
   3248222580, 3835390401, 4022224774, 264347078, 604807628,
   770255983, 1249150122, 1555081692, 1996064986, 2554220882,
   2821834349, 2952996808, 3210313671, 3336571891, 3584528711,
   113926993, 338241895, 666307205, 773529912, 1294757372,
   1396182291, 1695183700, 1986661051, 2177026350, 2456956037,
   2730485921, 2820302411, 3259730800, 3345764771, 3516065817,
   3600352804, 4094571909, 275423344, 430227734, 506948616,
   659060556, 883997877, 958139571, 1322822218, 1537002063,
   1747873779, 1955562222, 2024104815, 2227730452, 2361852424,
   2428436474, 2756734187, 3204031479, 3329325298]

/-- The SHA-256 initial hash value, in decimal. -/
def initH : List Nat :=
  [1779033703, 3144134277, 1013904242,
   2773480762, 1359893119, 2600822924,
   528734635, 1541459225]

/-- UTF-8 encoding of one character (Go strings are UTF-8 byte
sequences; `sha256.Sum256([]byte(s))` hashes those bytes). -/
def utf8Bytes (c : Char) : List Nat :=
  let n := c.toNat
  if n < 128 then [n]
  else if n < 2048 then [192 + n / 64, 128 + n % 64]
  else if n < 65536 then [224 + n / 4096, 128 + (n / 64) % 64, 128 + n % 64]
  else [240 + n / 262144, 128 + (n / 4096) % 64, 128 + (n / 64) % 64, 128 + n % 64]

/-- The UTF-8 bytes of a string. -/
def strBytes (s : String) : List Nat :=
  s.data.foldr (fun c acc => utf8Bytes c ++ acc) []

/-- SHA-256 padding: `0x80`, zeros to 56 mod 64, then the big-endian
64-bit bit length. -/
def padMessage (msg : List Nat) : List Nat :=
  let bitLen := msg.length * 8
  let zeros := (64 + 56 - (msg.length + 1) % 64) % 64
  let lenBytes := (List.range 8).map (fun i => (bitLen >>> ((7 - i) * 8)) % 256)
  msg ++ [128] ++ List.replicate zeros 0 ++ lenBytes

/-- Big-endian bytes to 32-bit words. -/
def bytesToWords : List Nat → List Nat
  | b0 :: b1 :: b2 :: b3 :: rest =>
      (((b0 * 256 + b1) * 256 + b2) * 256 + b3) :: bytesToWords rest
  | _ => []

/-- Split a padded message into 64-byte blocks (fuel-bounded). -/
def toBlocksAux : Nat → List Nat → List (List Nat)
  | 0, _ => []
  | fuel + 1, l =>
      if l = [] then [] else l.take 64 :: toBlocksAux fuel (l.drop 64)

/-- Extend the 16-word block to the 64-word message schedule. -/
def scheduleAux : Nat → List Nat → List Nat
  | 0, w => w
  | fuel + 1, w =>
      let t := w.length
      let v := (smallSigma1 (w.getD (t - 2) 0) + w.getD (t - 7) 0
        + smallSigma0 (w.getD (t - 15) 0) + w.getD (t - 16) 0) % pow32
      scheduleAux fuel (w ++ [v])

/-- The message schedule of one block. -/
def schedule (block : List Nat) : List Nat := scheduleAux 48 (bytesToWords block)

/-- One SHA-256 round on the state `[a,b,c,d,e,f,g,h]`. -/
def compressStep (st : List Nat) (kw : Nat × Nat) : List Nat :=
  match st with
  | [a, b, c, d, e, f, g, h] =>
      let t1 := (h + bigSigma1 e + choice e f g + kw.1 + kw.2) % pow32
      let t2 := (bigSigma0 a + majority a b c) % pow32
      [(t1 + t2) % pow32, a, b, c, (d + t1) % pow32, e, f, g]
  | other => other

/-- Compress one 64-byte block into the running hash. -/
def compressBlock (h : List Nat) (block : List Nat) : List Nat :=
  let st := (roundK.zip (schedule block)).foldl compressStep h
  (h.zip st).map (fun p => (p.1 + p.2) % pow32)

/-- The eight 32-bit words of the SHA-256 digest of a byte sequence. -/
def sha256Words (msg : List Nat) : List Nat :=
  let padded := padMessage msg
  (toBlocksAux padded.length padded).foldl compressBlock initH

/-- A lowercase hexadecimal digit. -/
def hexDigit (n : Nat) : Char :=
  if n < 10 then Char.ofNat (48 + n) else Char.ofNat (87 + n)

/-- Eight lowercase hex digits of one 32-bit word. -/
def word8Hex (w : Nat) : String :=
  String.mk ((List.range 8).map (fun i => hexDigit ((w >>> ((7 - i) * 4)) % 16)))

/-- `sha256Hex` from workspace_tools.go (`sha256.Sum256` +
`hex.EncodeToString`): the lowercase hex SHA-256 of a string's UTF-8
bytes.  Checked against the reference vectors for `""` and `"abc"`. -/
def sha256Hex (s : String) : String :=
  String.join ((sha256Words (strBytes s)).map word8Hex)

end SHA256

namespace Tools

/-- Go `encoding/json` escaping of one character inside a marshalled
string (quote, backslash, common control characters, and the HTML-safe
set `< > &` that `json.Marshal` escapes by default). -/
def jsonEscapeChar (c : Char) : String :=
  if c = '"' then "\\\""
  else if c = '\\' then "\\\\"
  else if c = '\n' then "\\n"
  else if c = '\r' then "\\r"
  else if c = '\t' then "\\t"
  else if c = '<' then "\\u003c"
  else if c = '>' then "\\u003e"
  else if c = '&' then "\\u0026"
  else String.singleton c

/-- Go `encoding/json` escaping of a marshalled string body. -/
def jsonEscape (s : String) : String :=
  s.data.foldl (fun acc c => acc ++ jsonEscapeChar c) ""

/-- `json.Marshal(map[string]any{"status": "error", "error": msg})`
from `WorkspaceFileTool.InvokableRun` — Go marshals map keys in sorted
order, so `error` precedes `status`. -/
def errorJSON (msg : String) : String :=
  "\x7b\"error\":\"" ++ jsonEscape msg ++ "\",\"status\":\"error\"\x7d"

/-- `mustJSON(map[string]string{"error": e})` from the Act stage. -/
def mustJSONError (msg : String) : String :=
  "\x7b\"error\":\"" ++ jsonEscape msg ++ "\"\x7d"

/-- `mustJSON(map[string]string{"raw": s})` from `normalizeJSON`. -/
def mustJSONRaw (s : String) : String :=
  "\x7b\"raw\":\"" ++ jsonEscape s ++ "\"\x7d"

/-- `normalizeJSON` from loop.go, parameterized by the `json.Valid`
predicate of the Go standard library: a valid JSON document passes
through verbatim, anything else is wrapped as `{"raw": ...}`. -/
def normalizeJSON (jsonValid : String → Bool) (s : String) : String :=
  let trimmed := Util.goTrim s
  if trimmed = "" then mustJSONRaw ""
  else if jsonValid trimmed then trimmed
  else mustJSONRaw trimmed

/-- What one `WorkspaceFileTool.InvokableRun` call produces: the result
string, the Go-level error, and the observer notification
`(tool, input, output, status)`. -/
structure InvokeOutcome where
  output : String
  goError : Option String
  observerTool : String
  observerInput : String
  observerOutput : String
  observerStatus : String
deriving Repr

/-- Shallow embedding of `WorkspaceFileTool.InvokableRun`
(workspace_tools.go lines 48-60): run the handler; on a handler error
replace the output with the structured error JSON and flip the
observer status to `"error"`; always return a nil Go error. -/
def invokableRun (handler : String → Except String String)
    (name args : String) : InvokeOutcome :=
  match handler args with
  | Except.ok out =>
      { output := out, goError := none, observerTool := name,
        observerInput := args, observerOutput := out, observerStatus := "ok" }
  | Except.error e =>
      let resp := errorJSON e
      { output := resp, goError := none, observerTool := name,
        observerInput := args, observerOutput := resp,
        observerStatus := "error" }

/-- The observation the Act stage feeds back to the model for one tool
call (loop.go lines 481-494): a non-nil invocation error replaces the
output with `mustJSON({"error": e})`; otherwise the output is
normalized. -/
def actObservation (jsonValid : String → Bool) (out : String)
    (runErr : Option String) : String :=
  match runErr with
  | some e => mustJSONError e
  | none => normalizeJSON jsonValid out

/-- A failing workspace handler for the C10 witness (`os.Remove` on a
missing file, as in `TestWorkspaceDelete`). -/
def missingFileHandler : String → Except String String :=
  fun _ => Except.error "delete file: remove nope.txt: no such file or directory"

/-- The decoded JSON arguments of `workspace_edit` (`handleEdit`'s
parameter struct). -/
structure EditParams where
  mode : String
  search : String
  replace : String
  startLine : Int
  endLine : Int
  apply : Bool
  expectedOriginalSha256 : String
deriving Repr

/-- One entry of `computeLineRanges`: the source's `start`/`end` byte
offsets (character offsets here — equal for ASCII content). -/
structure LineRange where
  startIdx : Nat
  endIdx : Nat
deriving DecidableEq, Repr

/-- Worker for `computeLineRanges`: scan for newlines, carrying the
current line start and position. -/
def computeLineRangesAux : List Char → Nat → Nat → List LineRange
  | [], lineStart, i => if lineStart < i then [⟨lineStart, i⟩] else []
  | c :: rest, lineStart, i =>
      if c = '\n' then
        ⟨lineStart, i + 1⟩ :: computeLineRangesAux rest (i + 1) (i + 1)
      else computeLineRangesAux rest lineStart (i + 1)

/-- `computeLineRanges` from workspace_tools.go: the half-open ranges
of each line, newline included; empty content has no lines. -/
def computeLineRanges (content : String) : List LineRange :=
  computeLineRangesAux content.data 0 0

/-- The edit-computation switch of `handleEdit` (workspace_tools.go
lines 327-373), producing the proposed content or a mode error.  The
`regexp` package is abstracted by three parameters: whether the
pattern compiles, `FindAllStringIndex`'s match count, and
`ReplaceAllString`. -/
def computeEdit (reCompiles : String → Bool)
    (reMatchCount : String → String → Nat)
    (reReplaceAll : String → String → String → String)
    (p : EditParams) (original : String) : Except String String :=
  let mode := if Util.goTrim p.mode = "" then "regex_replace" else Util.goTrim p.mode
  if mode = "regex_replace" then
    if p.search = "" then
      Except.error "search is required for regex_replace mode"
    else if ¬ reCompiles p.search then Except.error "compile regex"
    else if reMatchCount p.search original ≠ 1 then
      Except.error ("regex must match exactly once; got "
        ++ toString (reMatchCount p.search original) ++ " matches")
    else Except.ok (reReplaceAll p.search p.replace original)
  else if mode = "line_replace" then
    if p.startLine ≤ 0 then
      Except.error "start_line must be >= 1 for line_replace mode"
    else
      let endLine := if p.endLine = 0 then p.startLine else p.endLine
      if endLine < p.startLine then
        Except.error "end_line must be >= start_line"
      else
        let ranges := computeLineRanges original
        if ranges.length = 0 then
          Except.error "line_replace requires a non-empty file"
        else if (ranges.length : Int) < endLine then
          Except.error "line range exceeds file length"
        else
          let sb := (ranges.getD ((p.startLine - 1).toNat) ⟨0, 0⟩).startIdx
          let eb := (ranges.getD ((endLine - 1).toNat) ⟨0, 0⟩).endIdx
          Except.ok (String.mk (original.data.take sb) ++ p.replace
            ++ String.mk (original.data.drop eb))
  else Except.error ("unknown mode " ++ mode)

/-- The observable outcome of one `handleEdit` call on a file whose
current content is known: the error/response split, the `changed` and
`applied` flags, and the file content after the call (`newContent`
differs from `original` only when the edit was applied — applied
writes go through `atomicWriteFile`, i.e. a temp sibling plus
`rename`). -/
structure EditOutcome where
  isError : Bool
  errorMsg : String
  changed : Bool
  applied : Bool
  newContent : String
deriving Repr

/-- Shallow embedding of `handleEdit`'s apply gate (workspace_tools.go
lines 375-416 after the edit computation): preview mode and no-change
applies return success without writing; an apply of a real change
requires a non-empty `expected_original_sha256` equal to the SHA-256
of the current content, and only then rewrites the file. -/
def handleEdit (reCompiles : String → Bool)
    (reMatchCount : String → String → Nat)
    (reReplaceAll : String → String → String → String)
    (p : EditParams) (original : String) : EditOutcome :=
  match computeEdit reCompiles reMatchCount reReplaceAll p original with
  | Except.error m =>
      { isError := true, errorMsg := m, changed := false, applied := false,
        newContent := original }
  | Except.ok edited =>
      let changed := edited != original
      if !p.apply || !changed then
        { isError := false, errorMsg := "", changed := changed,
          applied := false, newContent := original }
      else if p.expectedOriginalSha256 = "" then
        { isError := true,
          errorMsg := "expected_original_sha256 is required when apply=true",
          changed := changed, applied := false, newContent := original }
      else if p.expectedOriginalSha256 ≠ SHA256.sha256Hex original then
        { isError := true, errorMsg := "expected_original_sha256 mismatch",
          changed := changed, applied := false, newContent := original }
      else
        { isError := false, errorMsg := "", changed := changed,
          applied := true, newContent := edited }

/-- Regex-engine stub for witnesses that only exercise `line_replace`. -/
def reAcceptAll : String → Bool := fun _ => true

/-- Match-count stub for witnesses that only exercise `line_replace`. -/
def reNoMatches : String → String → Nat := fun _ _ => 0

/-- Replacement stub for witnesses that only exercise `line_replace`. -/
def reKeepOriginal : String → String → String → String := fun _ _ s => s

/-- The C6 witness arguments: apply a `line_replace` of line 2 with the
correct hash of `"alpha\nbeta\n"` (spec scenario S5). -/
def editWitnessParams : EditParams :=
  { mode := "line_replace", search := "", replace := "gamma\n",
    startLine := 2, endLine := 2, apply := true,
    expectedOriginalSha256 :=
      "e49c81e2d2f84e259d40e2fb8192f3bcd198b355184845d76d8f58807d0d78ee" }

end Tools

namespace GoPath

/-- `filepath.IsAbs` on Unix: the path begins with a slash. -/
def goIsAbs (s : String) : Bool :=
  match s.data with
  | '/' :: _ => true
  | _ => false

/-- `strings.Split(s, "/")` worker over the remaining characters and
the current component (reversed). -/
def splitSlashAux : List Char → List Char → List String
  | [], cur => [String.mk cur.reverse]
  | c :: rest, cur =>
      if c = '/' then String.mk cur.reverse :: splitSlashAux rest []
      else splitSlashAux rest (c :: cur)

/-- `strings.Split(s, "/")`. -/
def splitSlash (s : String) : List String := splitSlashAux s.data []

/-- One step of `filepath.Clean`'s component processing (accumulator is
reversed): drop empty and `.` components; `..` pops a normal component,
vanishes at the root, and accumulates for relative paths. -/
def cleanStep (rooted : Bool) (acc : List String) (c : String) : List String :=
  if c = "" ∨ c = "." then acc
  else if c = ".." then
    match acc with
    | [] => if rooted then [] else [".."]
    | a :: rest => if a = ".." then c :: acc else rest
  else c :: acc

/-- Join components back with slashes. -/
def joinSlash : List String → String
  | [] => ""
  | [x] => x
  | x :: y :: rest => x ++ "/" ++ joinSlash (y :: rest)

/-- `filepath.Clean` for Unix paths (lexical only — like the Go
function it never consults the filesystem, so symbolic links are
invisible to it). -/
def clean (p : String) : String :=
  if p = "" then "."
  else
    let rooted := goIsAbs p
    let comps := ((splitSlash p).foldl (cleanStep rooted) []).reverse
    let body := joinSlash comps
    if rooted then "/" ++ body
    else if body = "" then "." else body

/-- `filepath.Join(a, b)`: join the non-empty elements with a slash and
clean; all-empty input stays empty. -/
def join2 (a b : String) : String :=
  if a = "" ∧ b = "" then ""
  else if a = "" then clean b
  else if b = "" then clean a
  else clean (a ++ "/" ++ b)

/-- `strings.HasPrefix(s, pre)`. -/
def goStartsWith (s pre : String) : Bool := pre.data.isPrefixOf s.data

/-- Shallow embedding of `sanitizePath` (workspace_tools.go lines
63-76): reject the empty path and absolute paths, then join with the
workspace root, clean, and keep the result only when the cleaned path
has the cleaned root as a string prefix. -/
def sanitizePath (baseDir relPath : String) : Except String String :=
  if relPath = "" then Except.error "path is required"
  else if goIsAbs relPath then Except.error "absolute paths are not allowed"
  else
    let joined := join2 baseDir relPath
    let cleaned := clean joined
    if ¬ goStartsWith cleaned (clean baseDir) then
      Except.error "path escapes workspace directory"
    else Except.ok cleaned

end GoPath

namespace Api

/-- One decimal digit character (`fmt` verb `%d` output alphabet). -/
def digitChar : Nat → Char
  | 0 => '0'
  | 1 => '1'
  | 2 => '2'
  | 3 => '3'
  | 4 => '4'
  | 5 => '5'
  | 6 => '6'
  | 7 => '7'
  | 8 => '8'
  | 9 => '9'
  | _ => '?'

/-- Decimal digits of a natural number, most significant first
(fuel-bounded so the definition evaluates by kernel reduction). -/
def natDigitsAux : Nat → Nat → List Char
  | 0, _ => []
  | fuel + 1, n =>
      if n < 10 then [digitChar n]
      else natDigitsAux fuel (n / 10) ++ [digitChar (n % 10)]

/-- Decimal digits of a natural number. -/
def natDigits (n : Nat) : List Char := natDigitsAux (n + 1) n

/-- The numeric value of a digit list (proof support for decimal
rendering injectivity). -/
def digitsVal (l : List Char) : Nat :=
  l.foldl (fun a c => a * 10 + (c.toNat - 48)) 0

/-- The decimal rendering `fmt.Sprintf("%d", n)` of a Go `int`. -/
def intRepr : Int → String
  | Int.ofNat n => String.mk (natDigits n)
  | Int.negSucc n => String.mk ('-' :: natDigits (n + 1))

/-- The `Run` fields that feed `runStreamSignature` (handlers.go lines
344-358).  Timestamps are modelled by their RFC 3339 rendering. -/
structure RunFields where
  id : String
  status : String
  summary : Option String
  error : Option String
  updatedAt : String
deriving DecidableEq, Repr

/-- The `Step` fields that feed `stepStreamSignature` (handlers.go
lines 360-379).  `toolInput`/`toolOutput` are the raw JSON strings
(`string(step.ToolInput)` — nil renders as the empty string);
timestamps are modelled by their `derefTime` rendering inputs. -/
structure StepFields where
  id : String
  stepNum : Int
  phase : String
  status : String
  tool : Option String
  toolInput : String
  toolOutput : String
  error : Option String
  startedAt : Option String
  completedAt : Option String
deriving DecidableEq, Repr

/-- `derefString`: a nil string pointer renders as the empty string. -/
def derefString (s : Option String) : String := s.getD ""

/-- `derefTime`: a nil time pointer renders as the empty string; a
non-nil one as its RFC 3339 rendering (the string carried here). -/
def derefTime (t : Option String) : String := t.getD ""

/-- The canonical pipe-delimited string hashed by
`runStreamSignature`: `id|status|summary|error|updated_at`. -/
def runSignatureInput (r : RunFields) : String :=
  r.id ++ "|" ++ r.status ++ "|" ++ derefString r.summary ++ "|"
    ++ derefString r.error ++ "|" ++ r.updatedAt

/-- `runStreamSignature` from handlers.go: the SHA-256 of the
canonical run string. -/
def runStreamSignature (r : RunFields) : String :=
  SHA256.sha256Hex (runSignatureInput r)

/-- The canonical pipe-delimited string hashed by
`stepStreamSignature`:
`id|step_num|phase|status|tool|tool_input|tool_output|error|started_at|completed_at`. -/
def stepSignatureInput (s : StepFields) : String :=
  s.id ++ "|" ++ intRepr s.stepNum ++ "|" ++ s.phase ++ "|" ++ s.status ++ "|"
    ++ derefString s.tool ++ "|" ++ s.toolInput ++ "|" ++ s.toolOutput ++ "|"
    ++ derefString s.error ++ "|" ++ derefTime s.startedAt ++ "|"
    ++ derefTime s.completedAt

/-- `stepStreamSignature` from handlers.go: the SHA-256 of the
canonical step string. -/
def stepStreamSignature (s : StepFields) : String :=
  SHA256.sha256Hex (stepSignatureInput s)

/-- Whether a rendered field is free of the `|` delimiter. -/
def pipeFree (s : String) : Prop := '|' ∉ s.data

/-- C9 counterexample, first run: summary `"|"`, error `""`. -/
def cexRunA : RunFields :=
  { id := "r1", status := "running", summary := some "|", error := some "",
    updatedAt := "2026-02-20T10:00:00Z" }

/-- C9 counterexample, second run: summary `""`, error `"|"` — a
different field tuple with the same canonical string. -/
def cexRunB : RunFields :=
  { id := "r1", status := "running", summary := some "", error := some "|",
    updatedAt := "2026-02-20T10:00:00Z" }

/-- C9 witness, first run: absent summary. -/
def witRunA : RunFields :=
  { id := "r2", status := "done", summary := none, error := none,
    updatedAt := "2026-02-20T10:00:00Z" }

/-- C9 witness, second run: summary present but empty — renders
identically to `witRunA`, so the fingerprints agree. -/
def witRunB : RunFields :=
  { id := "r2", status := "done", summary := some "", error := none,
    updatedAt := "2026-02-20T10:00:00Z" }

end Api

namespace MergeState

/-- Go's `encoding/json` value model (what `any` holds after
`json.Unmarshal`): the merge logic treats numbers and booleans
opaquely, so their representation is immaterial.  Objects are
association lists with the keys of a decoded JSON object (distinct in
decoded input). -/
inductive JVal where
  | null
  | bool (b : Bool)
  | num (n : Int)
  | str (s : String)
  | arr (items : List JVal)
  | obj (fields : List (String × JVal))
deriving Repr

/-- Go map read `m[k]`: the stored value, if the key is present. -/
def lookupPair {α : Type} : List (String × α) → String → Option α
  | [], _ => none
  | (k', v) :: rest, k => if k' = k then some v else lookupPair rest k

/-- Go map write `m[k] = v`: overwrite in place or append a new key. -/
def setPair {α : Type} : List (String × α) → String → α → List (String × α)
  | [], k, v => [(k, v)]
  | (k', v') :: rest, k, v =>
      if k' = k then (k, v) :: rest else (k', v') :: setPair rest k v

/-- `toObjectList` from loop.go: the JSON objects of an array, in
order; anything that is not an array yields nil. -/
def toObjectList : JVal → List (List (String × JVal))
  | JVal.arr items =>
      items.filterMap (fun it =>
        match it with
        | JVal.obj m => some m
        | _ => none)
  | _ => []

/-- `toStringList` from loop.go: the strings of an array, each passed
through `strings.TrimSpace`; anything that is not an array yields
nil. -/
def toStringList : JVal → List String
  | JVal.arr items =>
      items.filterMap (fun it =>
        match it with
        | JVal.str s => some (Util.goTrim s)
        | _ => none)
  | _ => []

/-- The `seen`-map pass at the heart of `mergeStringLists`: walk the
concatenated lists, dropping empty strings and anything already seen. -/
def dedupSkipEmpty : List String → List String → List String
  | _, [] => []
  | seen, s :: rest =>
      if s = "" ∨ s ∈ seen then dedupSkipEmpty seen rest
      else s :: dedupSkipEmpty (s :: seen) rest

/-- `mergeStringLists` from loop.go (lines 884-917): when either
decoded list is empty the other is returned verbatim; only when both
are non-empty are the two lists concatenated with empty strings and
duplicates dropped in first-appearance order. -/
def mergeStringLists (existingVal updatedVal : JVal) : List String :=
  let existing := toStringList existingVal
  let updated := toStringList updatedVal
  if existing = [] then updated
  else if updated = [] then existing
  else dedupSkipEmpty [] (existing ++ updated)

/-- `mergeObject` from loop.go: copy the existing object and overwrite
with every updated key (order of first appearance; Go's map has no
order and marshals sorted, so the association is what matters). -/
def mergeObject (existing updated : List (String × JVal)) :
    List (String × JVal) :=
  updated.foldl (fun acc p => setPair acc p.1 p.2) existing

/-- The trimmed string id of a todo entry
(`item["id"].(string)` — a missing or non-string id behaves as ""). -/
def todoId (item : List (String × JVal)) : String :=
  match lookupPair item "id" with
  | some (JVal.str s) => Util.goTrim s
  | _ => ""

/-- The id index built over the existing todo list (`index[id] = i`
for every entry with a non-empty id; later entries win). -/
def buildIndexAux : List (List (String × JVal)) → Nat → List (String × Nat) →
    List (String × Nat)
  | [], _, idx => idx
  | item :: rest, i, idx =>
      if todoId item = "" then buildIndexAux rest (i + 1) idx
      else buildIndexAux rest (i + 1) (setPair idx (todoId item) i)

/-- The update loop of `mergeTodo` (loop.go lines 856-869): an entry
with an empty id is appended unconditionally; a known id field-merges
into the indexed position; a new id is appended and indexed. -/
def mergeTodoLoop : List (List (String × JVal)) → List (String × Nat) →
    List (List (String × JVal)) → List (List (String × JVal))
  | acc, _, [] => acc
  | acc, idx, item :: rest =>
      if todoId item = "" then mergeTodoLoop (acc ++ [item]) idx rest
      else
        match lookupPair idx (todoId item) with
        | some i =>
            mergeTodoLoop (acc.set i (mergeObject (acc.getD i []) item)) idx rest
        | none =>
            mergeTodoLoop (acc ++ [item]) (setPair idx (todoId item) acc.length)
              rest

/-- `mergeTodo` from loop.go (lines 839-871): empty sides are returned
verbatim; otherwise the update loop runs over the id index of the
existing list. -/
def mergeTodo (existingVal updatedVal : JVal) :
    List (List (String × JVal)) :=
  let existingList := toObjectList existingVal
  let updatedList := toObjectList updatedVal
  if existingList.isEmpty then updatedList
  else if updatedList.isEmpty then existingList
  else mergeTodoLoop existingList (buildIndexAux existingList 0 []) updatedList

/-- The value stored for one updated key by `mergeStateJSON`'s switch
(`todo` / `evidence` / `notes` / default). -/
def mergeValue (acc : List (String × JVal)) (k : String) (v : JVal) : JVal :=
  if k = "todo" then
    JVal.arr ((mergeTodo ((lookupPair acc k).getD JVal.null) v).map JVal.obj)
  else if k = "evidence" || k = "notes" then
    JVal.arr ((mergeStringLists ((lookupPair acc k).getD JVal.null) v).map JVal.str)
  else v

/-- `mergeStateJSON` from loop.go (lines 810-837) on two decoded JSON
objects: fold the updated keys over the existing object.  Go iterates
the updated map in unspecified order; for the distinct keys of a
decoded object the per-key results are order-independent, because each
key's merge reads and writes only that key. -/
def mergeStateJSON (existing updated : List (String × JVal)) :
    List (String × JVal) :=
  updated.foldl (fun acc p => setPair acc p.1 (mergeValue acc p.1 p.2)) existing

/-- C7 counterexample: existing state with empty `evidence` and `todo`
lists. -/
def cexExisting : List (String × JVal) :=
  [("evidence", JVal.arr []), ("todo", JVal.arr [])]

/-- C7 counterexample: an `updated_state` with a duplicated evidence
string and an id-less todo entry. -/
def cexUpdated : List (String × JVal) :=
  [("evidence", JVal.arr [JVal.str "a", JVal.str "a"]),
   ("todo", JVal.arr [JVal.obj [("task", JVal.str "x")]])]

/-- The number of evidence entries of a merged state (used to separate
the two merge results without deciding `JVal` equality). -/
def evidenceLen (l : List (String × JVal)) : Nat :=
  match lookupPair l "evidence" with
  | some (JVal.arr xs) => xs.length
  | _ => 0

/-- The number of todo entries of a merged state. -/
def todoLen (l : List (String × JVal)) : Nat :=
  match lookupPair l "todo" with
  | some (JVal.arr xs) => xs.length
  | _ => 0

end MergeState

end AgenticLoop

namespace AgenticLoop

/-- C5: the claim "a later update to `running` leaves a previously set
`started_at` unchanged" is false: re-entering `running` (as happens
when crash recovery re-executes a `running` run) overwrites
`started_at` with the new `now`, because the SQL is
`started_at = COALESCE(?, started_at)` with the parameter bound to
`now` whenever the new status is `running`. -/
theorem updateStatus_overwrites_startedAt :
    (Store.updateStatus startedRun Store.RunStatus.running none none
        "2026-02-20T11:00:00.000000001Z").startedAt
      = some "2026-02-20T11:00:00.000000001Z" ∧
    startedRun.startedAt = some "2026-02-20T10:00:00.000000001Z" ∧
    (Store.updateStatus startedRun Store.RunStatus.running none none
        "2026-02-20T11:00:00.000000001Z").startedAt ≠ startedRun.startedAt := by
  refine ⟨rfl, rfl, ?_⟩
  decide

/-- C5 (amended): `UpdateStatus` writes `updated_at = now`; sets
`started_at = now` on every update whose status is `running`
(overwriting any previously recorded value) and leaves it unchanged
otherwise; sets `completed_at = now` on entry to a terminal status and
leaves it unchanged otherwise; and `summary`/`error` are sticky: they
are overwritten exactly when the corresponding argument is non-nil. -/
theorem updateStatus_spec (r : Store.RunRecord) (st : Store.RunStatus)
    (summary errMsg : Option String) (now : String) :
    (Store.updateStatus r st summary errMsg now).updatedAt = now ∧
    (Store.updateStatus r st summary errMsg now).status = st ∧
    (st = Store.RunStatus.running →
      (Store.updateStatus r st summary errMsg now).startedAt = some now) ∧
    (st ≠ Store.RunStatus.running →
      (Store.updateStatus r st summary errMsg now).startedAt = r.startedAt) ∧
    (st = Store.RunStatus.done ∨ st = Store.RunStatus.failed →
      (Store.updateStatus r st summary errMsg now).completedAt = some now) ∧
    (¬(st = Store.RunStatus.done ∨ st = Store.RunStatus.failed) →
      (Store.updateStatus r st summary errMsg now).completedAt = r.completedAt) ∧
    (summary = none →
      (Store.updateStatus r st summary errMsg now).summary = r.summary) ∧
    (∀ s, summary = some s →
      (Store.updateStatus r st summary errMsg now).summary = some s) ∧
    (errMsg = none →
      (Store.updateStatus r st summary errMsg now).error = r.error) ∧
    (∀ e, errMsg = some e →
      (Store.updateStatus r st summary errMsg now).error = some e) := by
  unfold Store.updateStatus Store.coalesce
  refine ⟨rfl, rfl, ?_, ?_, ?_, ?_, ?_, ?_, ?_, ?_⟩
  · intro h; subst h; simp
  · intro h; simp [h]
  · intro h
    rcases h with h | h <;> subst h <;> simp
  · intro h
    have h1 : st ≠ Store.RunStatus.done := fun hc => h (Or.inl hc)
    have h2 : st ≠ Store.RunStatus.failed := fun hc => h (Or.inr hc)
    simp [h1, h2]
  · intro h; subst h; rfl
  · intro s h; subst h; rfl
  · intro h; subst h; rfl
  · intro e h; subst h; rfl

/-- C5 amended-claim witness at a concrete input: updating a fresh row
to `failed` stamps `completed_at` and keeps the stored error sticky. -/
theorem updateStatus_spec_witness :
    (Store.RunStatus.failed = Store.RunStatus.done ∨
        Store.RunStatus.failed = Store.RunStatus.failed) ∧
    (Store.updateStatus startedRun Store.RunStatus.failed none (some "boom")
        "2026-02-20T12:00:00Z").completedAt = some "2026-02-20T12:00:00Z" :=
  ⟨Or.inr rfl,
    (updateStatus_spec startedRun Store.RunStatus.failed none (some "boom")
        "2026-02-20T12:00:00Z").2.2.2.2.1 (Or.inr rfl)⟩

/-- C1: the read-before-insert `RunStore.Create` is not race-safe.  In
the schedule where two concurrent callers both run `GetByWakeID`
against the empty table and caller A then commits its insert, caller
B's insert hits the `UNIQUE(wake_id)` constraint and `Create` returns
that constraint error — not the winning row with `existing = true` as
the claim (and the store's own concurrency test
`TestRunStoreCreateWakeIDConcurrent`) requires.  The first two
conjuncts replay the schedule; the third shows the sequential
re-invocation path that does return `existing = true`, so only the
conflict path diverges. -/
theorem runStoreCreate_race_returns_error :
    Store.runStoreCreate [] [] (some "w2") "id-A"
      = Except.ok (winnerRow, false, [winnerRow]) ∧
    Store.runStoreCreate [] [winnerRow] (some "w2") "id-B"
      = Except.error "insert run: UNIQUE constraint failed: runs.wake_id" ∧
    Store.runStoreCreate [winnerRow] [winnerRow] (some "w2") "id-B"
      = Except.ok (winnerRow, true, [winnerRow]) := by
  refine ⟨rfl, ?_, rfl⟩
  rfl

/-- C4: `Runner.Enqueue` backpressure contract.  For every queue
occupancy, capacity, timeout and slot-release time: the caller never
blocks for longer than `max timeout 0`; a queue with room accepts
immediately; with `enqueue_timeout ≤ 0` a full queue fails fast with
`ErrQueueFull`; and a queue that stays at capacity through the whole
timeout window yields `ErrQueueFull` after blocking exactly the
timeout. -/
theorem enqueue_spec (queueLen capacity : Nat) (timeoutNs : Int)
    (roomAtNs : Option Nat) :
    (0 ≤ (Runner.enqueue queueLen capacity timeoutNs roomAtNs).2 ∧
      (Runner.enqueue queueLen capacity timeoutNs roomAtNs).2 ≤ max timeoutNs 0) ∧
    (queueLen < capacity →
      Runner.enqueue queueLen capacity timeoutNs roomAtNs
        = (Runner.EnqueueResult.enqueued, 0)) ∧
    (capacity ≤ queueLen → timeoutNs ≤ 0 →
      Runner.enqueue queueLen capacity timeoutNs roomAtNs
        = (Runner.EnqueueResult.queueFull, 0)) ∧
    (capacity ≤ queueLen → 0 < timeoutNs →
      (∀ t, roomAtNs = some t → timeoutNs ≤ (t : Int)) →
      Runner.enqueue queueLen capacity timeoutNs roomAtNs
        = (Runner.EnqueueResult.queueFull, timeoutNs)) := by
  refine ⟨?_, ?_, ?_, ?_⟩
  · unfold Runner.enqueue
    by_cases hroom : queueLen < capacity
    · simp [hroom]
    · by_cases htime : timeoutNs ≤ 0
      · simp [hroom, htime]
      · have hpos : 0 < timeoutNs := lt_of_not_le htime
        cases roomAtNs with
        | none =>
            simp only [hroom, htime, if_false, if_neg]
            constructor
            · exact le_of_lt hpos
            · exact le_max_left _ _
        | some t =>
            by_cases hlt : (t : Int) < timeoutNs
            · simp only [hroom, htime, hlt, if_false, if_neg, if_pos]
              exact ⟨Int.ofNat_nonneg t, le_max_of_le_left (le_of_lt hlt)⟩
            · simp only [hroom, htime, hlt, if_false, if_neg]
              exact ⟨le_of_lt hpos, le_max_left _ _⟩
  · intro h
    unfold Runner.enqueue
    simp [h]
  · intro hfull htime
    unfold Runner.enqueue
    simp [Nat.not_lt_of_le hfull, htime]
  · intro hfull htime hroom
    unfold Runner.enqueue
    cases roomAtNs with
    | none => simp [Nat.not_lt_of_le hfull, not_le_of_lt htime]
    | some t =>
        have ht : timeoutNs ≤ (t : Int) := hroom t rfl
        simp [Nat.not_lt_of_le hfull, not_le_of_lt htime, not_lt_of_le ht]

/-- C4 witness: with a full one-slot queue and a 5 ns timeout during
which no slot frees, `Enqueue` blocks 5 ns and returns `QueueFull`;
with `timeout = 0` it fails fast. -/
theorem enqueue_spec_witness :
    (1 ≤ 1 ∧ (0 : Int) < 5 ∧ ∀ t : Nat, (none : Option Nat) = some t → (5 : Int) ≤ (t : Int)) ∧
    Runner.enqueue 1 1 5 none = (Runner.EnqueueResult.queueFull, 5) ∧
    Runner.enqueue 1 1 0 none = (Runner.EnqueueResult.queueFull, 0) :=
  ⟨⟨le_refl 1, by decide, fun t h => by cases h⟩,
    (enqueue_spec 1 1 5 none).2.2.2 (le_refl 1) (by decide)
      (fun t h => by cases h),
    (enqueue_spec 1 1 0 none).2.2.1 (le_refl 1) (by decide)⟩

/-- `afterAct` can only turn `successReported` on, never off. -/
theorem afterAct_successReported (st : Loop.LoopState) (o : Loop.IterOutcome) :
    (Loop.afterAct st o).successReported
      = (st.successReported || o.actSuccessReported) := by
  unfold Loop.afterAct
  by_cases h : o.actSuccessReported <;> simp [h]

/-- Gate and continue rewrites leave `successReported` unchanged. -/
theorem gateState_successReported (st : Loop.LoopState) :
    (Loop.gateState st).successReported = st.successReported := rfl

/-- Exhausting the loop without an observed `report_success` fails with
the dedicated reason. -/
theorem execLoop_no_success_fails (outcomes : List Loop.IterOutcome) :
    ∀ st : Loop.LoopState, st.successReported = false →
      (∀ o ∈ outcomes, o.actSuccessReported = false) →
      Loop.execLoop outcomes st
        = Loop.RunOutcome.failed
            "max loops exhausted without required report_success call" := by
  induction outcomes with
  | nil =>
      intro st hst _
      simp [Loop.execLoop, hst]
  | cons o rest ih =>
      intro st hst hall
      have ho : o.actSuccessReported = false := hall o (List.mem_cons_self o rest)
      have hrest : ∀ o' ∈ rest, o'.actSuccessReported = false :=
        fun o' h => hall o' (List.mem_cons_of_mem o h)
      have hsr : (Loop.afterAct st o).successReported = false := by
        rw [afterAct_successReported, hst, ho]
        rfl
      unfold Loop.execLoop
      by_cases hd : Loop.resolvedNextStage o.decision = "done"
      · simp only [hd, if_pos, hsr]
        simp only [Bool.not_eq_true, if_pos]
        exact ih (Loop.gateState (Loop.afterAct st o)) hsr hrest
      · simp only [hd, if_neg, if_false]
        exact ih _ hsr hrest

/-- A `done` outcome implies a successful `report_success` call was
observed: either before this state or in one of the iterations. -/
theorem execLoop_done_implies_success (outcomes : List Loop.IterOutcome) :
    ∀ (st : Loop.LoopState) (s : String),
      Loop.execLoop outcomes st = Loop.RunOutcome.done s →
      st.successReported = true ∨ ∃ o ∈ outcomes, o.actSuccessReported = true := by
  induction outcomes with
  | nil =>
      intro st s h
      unfold Loop.execLoop at h
      by_cases hst : st.successReported = true
      · exact Or.inl hst
      · simp [Bool.not_eq_true] at hst
        simp [hst] at h
  | cons o rest ih =>
      intro st s h
      unfold Loop.execLoop at h
      by_cases hd : Loop.resolvedNextStage o.decision = "done"
      · simp only [hd, if_pos] at h
        by_cases hsr : (Loop.afterAct st o).successReported = true
        · rw [afterAct_successReported] at hsr
          rcases Bool.or_eq_true_iff.mp hsr with hl | hr
          · exact Or.inl hl
          · exact Or.inr ⟨o, List.mem_cons_self o rest, hr⟩
        · simp only [Bool.not_eq_true] at hsr
          simp only [hsr, Bool.not_eq_true, if_pos] at h
          rcases ih _ s h with hst1 | ⟨o', ho', hs'⟩
          · rw [gateState_successReported, afterAct_successReported] at hst1
            rcases Bool.or_eq_true_iff.mp hst1 with hl | hr
            · exact Or.inl hl
            · exact Or.inr ⟨o, List.mem_cons_self o rest, hr⟩
          · exact Or.inr ⟨o', List.mem_cons_of_mem o ho', hs'⟩
      · simp only [hd, if_neg, if_false] at h
        rcases ih _ s h with hst1 | ⟨o', ho', hs'⟩
        · rw [afterAct_successReported] at hst1
          rcases Bool.or_eq_true_iff.mp hst1 with hl | hr
          · exact Or.inl hl
          · exact Or.inr ⟨o, List.mem_cons_self o rest, hr⟩
        · exact Or.inr ⟨o', List.mem_cons_of_mem o ho', hs'⟩

/-- C3: the completion gate.  (i) When the reflect decision resolves to
`done` but no successful `report_success` call has been observed, the
executor does not terminate: the iteration rewrites the state with
`next_stage = "plan"` and the corrective `next_focus`, and the loop
continues on the remaining iterations.  (ii) A run starting without an
observed `report_success` whose iterations never successfully call it
ends `failed` with the reason containing
"without required report_success call".  (iii) `done` is reachable only
after a successful `report_success` call. -/
theorem completion_gate :
    (∀ (o : Loop.IterOutcome) (rest : List Loop.IterOutcome)
        (st : Loop.LoopState),
      Loop.resolvedNextStage o.decision = "done" →
      (Loop.afterAct st o).successReported = false →
      Loop.execLoop (o :: rest) st
          = Loop.execLoop rest (Loop.gateState (Loop.afterAct st o)) ∧
        (Loop.gateState (Loop.afterAct st o)).nextStage = "plan" ∧
        (Loop.gateState (Loop.afterAct st o)).nextFocus = Loop.gateFocus) ∧
    (∀ outcomes : List Loop.IterOutcome,
      (∀ o ∈ outcomes, o.actSuccessReported = false) →
      Loop.execLoop outcomes Loop.initialState
          = Loop.RunOutcome.failed
              "max loops exhausted without required report_success call" ∧
        "max loops exhausted without required report_success call"
          = "max loops exhausted " ++ "without required report_success call") ∧
    (∀ (outcomes : List Loop.IterOutcome) (s : String),
      Loop.execLoop outcomes Loop.initialState = Loop.RunOutcome.done s →
      ∃ o ∈ outcomes, o.actSuccessReported = true) := by
  refine ⟨?_, ?_, ?_⟩
  · intro o rest st hd hsr
    refine ⟨?_, rfl, rfl⟩
    simp [Loop.execLoop, hd, hsr]
  · intro outcomes hall
    refine ⟨execLoop_no_success_fails outcomes Loop.initialState rfl hall, rfl⟩
  · intro outcomes s h
    rcases execLoop_done_implies_success outcomes Loop.initialState s h with h1 | h2
    · exact absurd h1 (by simp [Loop.initialState])
    · exact h2

/-- C3 witness: a two-iteration run whose reflect decisions both say
`done` without any `report_success` call is gated in iteration one and
fails after exhaustion with the dedicated reason (spec scenario S4). -/
theorem completion_gate_witness :
    (Loop.resolvedNextStage gatedIter.decision = "done" ∧
      (Loop.afterAct Loop.initialState gatedIter).successReported = false ∧
      ∀ o ∈ [gatedIter, gatedIter], o.actSuccessReported = false) ∧
    Loop.execLoop [gatedIter, gatedIter] Loop.initialState
      = Loop.execLoop [gatedIter]
          (Loop.gateState (Loop.afterAct Loop.initialState gatedIter)) ∧
    Loop.execLoop [gatedIter, gatedIter] Loop.initialState
      = Loop.RunOutcome.failed
          "max loops exhausted without required report_success call" := by
  have hall : ∀ o ∈ [gatedIter, gatedIter], o.actSuccessReported = false := by
    intro o ho
    rcases List.mem_cons.mp ho with h | h
    · subst h; rfl
    · rcases List.mem_cons.mp h with h2 | h2
      · subst h2; rfl
      · cases h2
  exact ⟨⟨rfl, rfl, hall⟩,
    (completion_gate.1 gatedIter [gatedIter] Loop.initialState rfl rfl).1,
    (completion_gate.2.1 [gatedIter, gatedIter] hall).1⟩

/-- Doubling-then-capping commutes with shifting the start of the
backoff sequence to the second element. -/
theorem specBackoff_shift (i : Int) (j : Nat) :
    Ductile.specBackoff (min (i * 2) Ductile.maxBackoffNs) j
      = Ductile.specBackoff i (j + 1) := by
  induction j with
  | zero => rfl
  | succ j ih =>
      show min (Ductile.specBackoff (min (i * 2) Ductile.maxBackoffNs) j * 2)
            Ductile.maxBackoffNs = _
      rw [ih]
      rfl

/-- Exhaustion: `fuel` consecutive non-terminal polls consume all fuel
and surface the max-attempts error. -/
theorem pollJobAux_exhaust (jobID : String) (statusAt : Nat → String) :
    ∀ (fuel attempt : Nat) (i : Int),
      (∀ k, k < fuel → Ductile.isTerminal (statusAt (attempt + k)) = false) →
      (Ductile.pollJobAux jobID statusAt attempt fuel i).outcome
          = Except.error ("poll job " ++ jobID ++ ": max attempts (60) exhausted") ∧
        (Ductile.pollJobAux jobID statusAt attempt fuel i).polls = fuel := by
  intro fuel
  induction fuel with
  | zero => intro attempt i _; exact ⟨rfl, rfl⟩
  | succ fuel ih =>
      intro attempt i h
      have h0 : Ductile.isTerminal (statusAt attempt) = false := by
        have := h 0 (Nat.succ_pos fuel)
        simpa using this
      have hrest : ∀ k, k < fuel →
          Ductile.isTerminal (statusAt (attempt + 1 + k)) = false := by
        intro k hk
        have := h (k + 1) (Nat.succ_lt_succ hk)
        have harith : attempt + (k + 1) = attempt + 1 + k := by omega
        rwa [harith] at this
      have := ih (attempt + 1) (min (i * 2) Ductile.maxBackoffNs) hrest
      constructor
      · simp only [Ductile.pollJobAux, h0, Bool.false_eq_true, if_false]
        exact this.1
      · simp only [Ductile.pollJobAux, h0, Bool.false_eq_true, if_false]
        rw [this.2]

/-- Early return: the first terminal status ends polling immediately
after that poll. -/
theorem pollJobAux_terminal (jobID : String) (statusAt : Nat → String) :
    ∀ (fuel attempt k : Nat) (i : Int),
      k < fuel →
      (∀ j, j < k → Ductile.isTerminal (statusAt (attempt + j)) = false) →
      Ductile.isTerminal (statusAt (attempt + k)) = true →
      (Ductile.pollJobAux jobID statusAt attempt fuel i).outcome
          = Except.ok (statusAt (attempt + k)) ∧
        (Ductile.pollJobAux jobID statusAt attempt fuel i).polls = k + 1 ∧
        (Ductile.pollJobAux jobID statusAt attempt fuel i).waits.length = k := by
  intro fuel
  induction fuel with
  | zero => intro attempt k i hk; omega
  | succ fuel ih =>
      intro attempt k i hk hbefore hterm
      cases k with
      | zero =>
          have h0 : Ductile.isTerminal (statusAt attempt) = true := by
            simpa using hterm
          refine ⟨?_, ?_, ?_⟩ <;>
            simp only [Ductile.pollJobAux, h0, if_true] <;> simp
      | succ k =>
          have h0 : Ductile.isTerminal (statusAt attempt) = false := by
            have := hbefore 0 (Nat.succ_pos k)
            simpa using this
          have hb : ∀ j, j < k →
              Ductile.isTerminal (statusAt (attempt + 1 + j)) = false := by
            intro j hj
            have := hbefore (j + 1) (Nat.succ_lt_succ hj)
            have harith : attempt + (j + 1) = attempt + 1 + j := by omega
            rwa [harith] at this
          have ht : Ductile.isTerminal (statusAt (attempt + 1 + k)) = true := by
            have harith : attempt + (k + 1) = attempt + 1 + k := by omega
            rwa [harith] at hterm
          have hr := ih (attempt + 1) k (min (i * 2) Ductile.maxBackoffNs)
            (Nat.lt_of_succ_lt_succ hk) hb ht
          have harith : attempt + 1 + k = attempt + (k + 1) := by omega
          refine ⟨?_, ?_, ?_⟩ <;>
            simp only [Ductile.pollJobAux, h0, Bool.false_eq_true, if_false]
          · rw [hr.1, harith]
          · rw [hr.2.1]
          · simp only [List.length_cons, hr.2.2]

/-- The wait sequence of `pollJobAux` follows `specBackoff` from its
starting interval. -/
theorem pollJobAux_waits (jobID : String) (statusAt : Nat → String) :
    ∀ (fuel attempt : Nat) (i : Int),
      (Ductile.pollJobAux jobID statusAt attempt fuel i).waits
        = (List.range
            (Ductile.pollJobAux jobID statusAt attempt fuel i).waits.length).map
            (Ductile.specBackoff i) := by
  intro fuel
  induction fuel with
  | zero => intro attempt i; rfl
  | succ fuel ih =>
      intro attempt i
      by_cases h0 : Ductile.isTerminal (statusAt attempt) = true
      · simp [Ductile.pollJobAux, h0]
      · have h0' : Ductile.isTerminal (statusAt attempt) = false := by
          simpa using h0
        simp only [Ductile.pollJobAux, h0', Bool.false_eq_true, if_false,
          List.length_cons, List.range_succ_eq_map, List.map_cons, List.map_map]
        rw [show Ductile.specBackoff i 0 = i from rfl]
        congr 1
        rw [ih (attempt + 1) (min (i * 2) Ductile.maxBackoffNs)]
        simp only [List.length_map, List.length_range]
        apply List.map_congr_left
        intro j _
        show Ductile.specBackoff (min (i * 2) Ductile.maxBackoffNs) j
            = Ductile.specBackoff i (j + 1)
        exact specBackoff_shift i j

/-- `pollJobAux` never polls more often than its fuel allows. -/
theorem pollJobAux_polls_le (jobID : String) (statusAt : Nat → String) :
    ∀ (fuel attempt : Nat) (i : Int),
      (Ductile.pollJobAux jobID statusAt attempt fuel i).polls ≤ fuel := by
  intro fuel
  induction fuel with
  | zero => intro attempt i; exact Nat.le_refl 0
  | succ fuel ih =>
      intro attempt i
      by_cases h0 : Ductile.isTerminal (statusAt attempt) = true
      · simp [Ductile.pollJobAux, h0]
      · have h0' : Ductile.isTerminal (statusAt attempt) = false := by
          simpa using h0
        simp only [Ductile.pollJobAux, h0', Bool.false_eq_true, if_false]
        exact Nat.succ_le_succ (ih (attempt + 1) _)

/-- C8: `Client.PollJob` polling discipline.  For every job id, status
oracle and caller interval: (i) polling stops at the first terminal
status (`succeeded`/`failed`/`timed_out`/`dead`), having made exactly
`k+1` `GetJob` calls when the first terminal status is the `k`-th;
(ii) sixty consecutive non-terminal statuses exhaust polling with the
max-attempts error after exactly 60 calls; (iii) at most 60 calls are
ever made; (iv) the sleep sequence is the spec's backoff: it starts at
the caller's interval, each subsequent wait is the double of the
previous one capped at 30 s, and every wait after the first is at most
30 s. -/
theorem pollJob_spec (jobID : String) (statusAt : Nat → String) (i : Int) :
    (∀ k, k < 60 →
      (∀ j, j < k → Ductile.isTerminal (statusAt j) = false) →
      Ductile.isTerminal (statusAt k) = true →
      (Ductile.pollJob jobID statusAt i).outcome = Except.ok (statusAt k) ∧
        (Ductile.pollJob jobID statusAt i).polls = k + 1) ∧
    ((∀ k, k < 60 → Ductile.isTerminal (statusAt k) = false) →
      (Ductile.pollJob jobID statusAt i).outcome
          = Except.error ("poll job " ++ jobID ++ ": max attempts (60) exhausted") ∧
        (Ductile.pollJob jobID statusAt i).polls = 60) ∧
    (Ductile.pollJob jobID statusAt i).polls ≤ 60 ∧
    ((Ductile.pollJob jobID statusAt i).waits
        = (List.range (Ductile.pollJob jobID statusAt i).waits.length).map
            (Ductile.specBackoff i) ∧
      Ductile.specBackoff i 0 = i ∧
      (∀ j, Ductile.specBackoff i (j + 1)
          = min (Ductile.specBackoff i j * 2) Ductile.maxBackoffNs) ∧
      (∀ j, 1 ≤ j → Ductile.specBackoff i j ≤ Ductile.maxBackoffNs)) := by
  refine ⟨?_, ?_, ?_, ?_, rfl, fun j => rfl, ?_⟩
  · intro k hk hbefore hterm
    have := pollJobAux_terminal jobID statusAt 60 0 k i hk
      (by intro j hj; simpa using hbefore j hj) (by simpa using hterm)
    exact ⟨by simpa using this.1, this.2.1⟩
  · intro hall
    have := pollJobAux_exhaust jobID statusAt 60 0 i
      (by intro k hk; simpa using hall k hk)
    exact this
  · exact pollJobAux_polls_le jobID statusAt 60 0 i
  · exact pollJobAux_waits jobID statusAt 60 0 i
  · intro j hj
    cases j with
    | zero => omega
    | succ j => exact min_le_right _ _

/-- C8 witness: a job that succeeds on its third poll returns
`succeeded` after exactly 3 calls; a job that never leaves `queued`
exhausts after exactly 60 calls with the max-attempts error. -/
theorem pollJob_spec_witness :
    (2 < 60 ∧ (∀ j, j < 2 → Ductile.isTerminal (succeedsAtTwo j) = false) ∧
      Ductile.isTerminal (succeedsAtTwo 2) = true ∧
      (∀ k, k < 60 → Ductile.isTerminal (alwaysQueued k) = false)) ∧
    (Ductile.pollJob "job-7" succeedsAtTwo 500).outcome = Except.ok "succeeded" ∧
    (Ductile.pollJob "job-7" succeedsAtTwo 500).polls = 3 ∧
    (Ductile.pollJob "job-9" alwaysQueued 500).outcome
      = Except.error "poll job job-9: max attempts (60) exhausted" ∧
    (Ductile.pollJob "job-9" alwaysQueued 500).polls = 60 := by
  have htwo : ∀ j, j < 2 → Ductile.isTerminal (succeedsAtTwo j) = false := by
    intro j hj
    have : j = 0 ∨ j = 1 := by omega
    rcases this with h | h <;> subst h <;> rfl
  have hqueued : ∀ k, k < 60 → Ductile.isTerminal (alwaysQueued k) = false := by
    intro k _; rfl
  have hterm := (pollJob_spec "job-7" succeedsAtTwo 500).1 2 (by omega) htwo rfl
  have hex := (pollJob_spec "job-9" alwaysQueued 500).2.1 hqueued
  exact ⟨⟨by omega, htwo, rfl, hqueued⟩, hterm.1, hterm.2, hex.1, hex.2⟩

/-- C10: `WorkspaceFileTool.InvokableRun` never surfaces a Go error.
For every handler and argument string: the returned Go error is nil;
a failing handler yields the structured
`{"error": ..., "status": "error"}` JSON as the result string with the
observer notified at status `"error"`; a succeeding handler passes its
result through with status `"ok"`; and consequently the Act stage's
invocation-error branch is never taken for these tools — the
observation fed to the model is always the normalization of the
returned output. -/
theorem invokableRun_never_errors (handler : String → Except String String)
    (name args : String) (jsonValid : String → Bool) :
    (Tools.invokableRun handler name args).goError = none ∧
    (∀ e, handler args = Except.error e →
      (Tools.invokableRun handler name args).output = Tools.errorJSON e ∧
      (Tools.invokableRun handler name args).observerStatus = "error" ∧
      (Tools.invokableRun handler name args).observerOutput
        = Tools.errorJSON e) ∧
    (∀ out, handler args = Except.ok out →
      (Tools.invokableRun handler name args).output = out ∧
      (Tools.invokableRun handler name args).observerStatus = "ok") ∧
    Tools.actObservation jsonValid (Tools.invokableRun handler name args).output
        (Tools.invokableRun handler name args).goError
      = Tools.normalizeJSON jsonValid (Tools.invokableRun handler name args).output := by
  cases h : handler args with
  | ok out =>
      refine ⟨?_, ?_, ?_, ?_⟩
      · simp [Tools.invokableRun, h]
      · intro e he; cases he
      · intro out' ho
        cases ho
        constructor <;> simp [Tools.invokableRun, h]
      · simp [Tools.invokableRun, h, Tools.actObservation]
  | error e =>
      refine ⟨?_, ?_, ?_, ?_⟩
      · simp [Tools.invokableRun, h]
      · intro e' he
        cases he
        refine ⟨?_, ?_, ?_⟩ <;> simp [Tools.invokableRun, h]
      · intro out' ho; cases ho
      · simp [Tools.invokableRun, h, Tools.actObservation]

/-- C10 witness: deleting a missing file fails inside the handler, yet
`InvokableRun` returns a nil Go error and the structured error JSON
(matching `TestWorkspaceDelete`'s "error in response, not Go error"). -/
theorem invokableRun_never_errors_witness :
    Tools.missingFileHandler "\x7b\"path\":\"nope.txt\"\x7d"
        = Except.error "delete file: remove nope.txt: no such file or directory" ∧
    (Tools.invokableRun Tools.missingFileHandler "workspace_delete"
        "\x7b\"path\":\"nope.txt\"\x7d").goError = none ∧
    (Tools.invokableRun Tools.missingFileHandler "workspace_delete"
        "\x7b\"path\":\"nope.txt\"\x7d").output
      = Tools.errorJSON "delete file: remove nope.txt: no such file or directory" ∧
    (Tools.invokableRun Tools.missingFileHandler "workspace_delete"
        "\x7b\"path\":\"nope.txt\"\x7d").observerStatus = "error" :=
  ⟨rfl,
    (invokableRun_never_errors Tools.missingFileHandler "workspace_delete"
      "\x7b\"path\":\"nope.txt\"\x7d" (fun _ => true)).1,
    ((invokableRun_never_errors Tools.missingFileHandler "workspace_delete"
      "\x7b\"path\":\"nope.txt\"\x7d" (fun _ => true)).2.1
        "delete file: remove nope.txt: no such file or directory" rfl).1,
    ((invokableRun_never_errors Tools.missingFileHandler "workspace_delete"
      "\x7b\"path\":\"nope.txt\"\x7d" (fun _ => true)).2.1
        "delete file: remove nope.txt: no such file or directory" rfl).2.1⟩

/-- C2: `sanitizePath` does accept a prefix-collision escape.  With
workspace root `/ws/run1`, the relative path `../run1evil/x` cleans to
`/ws/run1evil/x` — outside the workspace (a sibling directory whose
name has the root as a string prefix) — yet the string-prefix
containment check accepts it, because `"/ws/run1"` is a prefix of
`"/ws/run1evil/x"`.  The remaining conjuncts confirm the rejections
that do work (empty, absolute, dot-escape, nested dot-escape), matching
`TestSanitizePath`; no symlink handling exists anywhere in the
function. -/
theorem sanitizePath_accepts_prefix_collision :
    GoPath.sanitizePath "/ws/run1" "../run1evil/x"
        = Except.ok "/ws/run1evil/x" ∧
    ("/ws/run1evil/x" ≠ "/ws/run1" ∧
      GoPath.goStartsWith "/ws/run1evil/x" "/ws/run1/" = false) ∧
    GoPath.sanitizePath "/ws/run1" "" = Except.error "path is required" ∧
    GoPath.sanitizePath "/ws/run1" "/etc/passwd"
        = Except.error "absolute paths are not allowed" ∧
    GoPath.sanitizePath "/ws/run1" "../outside"
        = Except.error "path escapes workspace directory" ∧
    GoPath.sanitizePath "/ws/run1" "a/../../outside"
        = Except.error "path escapes workspace directory" := by
  refine ⟨rfl, ⟨by decide, rfl⟩, rfl, rfl, rfl, rfl⟩

/-- C6: the `workspace_edit` apply gate.  For every file content and
every invocation with `apply = true` whose edit computation succeeds:
when the computed edit differs from the current content, the file is
rewritten (with `newContent` becoming the computed edit) exactly when
`expected_original_sha256` is supplied (non-empty) and equals the
SHA-256 of the current content; otherwise the call errors with the
file unchanged.  When the computed edit equals the current content the
call succeeds and writes nothing, with no hash required.  A failing
edit computation also leaves the file unchanged. -/
theorem workspaceEdit_apply_gate (reC : String → Bool)
    (reN : String → String → Nat) (reR : String → String → String → String)
    (p : Tools.EditParams) (original : String) (happly : p.apply = true) :
    (∀ edited, Tools.computeEdit reC reN reR p original = Except.ok edited →
      (edited ≠ original →
        (((Tools.handleEdit reC reN reR p original).applied = true ∧
            (Tools.handleEdit reC reN reR p original).newContent = edited) ↔
          (p.expectedOriginalSha256 ≠ "" ∧
            p.expectedOriginalSha256 = SHA256.sha256Hex original))) ∧
      (edited ≠ original →
        ¬(p.expectedOriginalSha256 ≠ "" ∧
            p.expectedOriginalSha256 = SHA256.sha256Hex original) →
        (Tools.handleEdit reC reN reR p original).isError = true ∧
          (Tools.handleEdit reC reN reR p original).applied = false ∧
          (Tools.handleEdit reC reN reR p original).newContent = original) ∧
      (edited = original →
        (Tools.handleEdit reC reN reR p original).isError = false ∧
          (Tools.handleEdit reC reN reR p original).applied = false ∧
          (Tools.handleEdit reC reN reR p original).newContent = original)) ∧
    (∀ m, Tools.computeEdit reC reN reR p original = Except.error m →
      (Tools.handleEdit reC reN reR p original).isError = true ∧
        (Tools.handleEdit reC reN reR p original).applied = false ∧
        (Tools.handleEdit reC reN reR p original).newContent = original) := by
  refine ⟨?_, ?_⟩
  · intro edited he
    refine ⟨?_, ?_, ?_⟩
    · intro hne
      have hb : (edited != original) = true := bne_iff_ne.mpr hne
      by_cases hemp : p.expectedOriginalSha256 = ""
      · simp [Tools.handleEdit, he, happly, hb, hemp]
      · by_cases hhash : p.expectedOriginalSha256 = SHA256.sha256Hex original
        · have hne2 : SHA256.sha256Hex original ≠ "" := by
            rw [← hhash]; exact hemp
          simp [Tools.handleEdit, he, happly, hb, hemp, hhash, hne2]
        · simp [Tools.handleEdit, he, happly, hb, hemp, hhash]
    · intro hne hno
      have hb : (edited != original) = true := bne_iff_ne.mpr hne
      by_cases hemp : p.expectedOriginalSha256 = ""
      · simp [Tools.handleEdit, he, happly, hb, hemp]
      · by_cases hhash : p.expectedOriginalSha256 = SHA256.sha256Hex original
        · exact absurd ⟨hemp, hhash⟩ hno
        · simp [Tools.handleEdit, he, happly, hb, hemp, hhash]
    · intro heq
      subst heq
      simp [Tools.handleEdit, he, happly]
  · intro m hm
    simp [Tools.handleEdit, hm]

/-- C6 witness (spec scenario S5): applying a `line_replace` of line 2
of `"alpha\nbeta\n"` with the correct hash rewrites the file to
`"alpha\ngamma\n"`. -/
theorem workspaceEdit_apply_gate_witness :
    (Tools.editWitnessParams.apply = true ∧
      Tools.computeEdit Tools.reAcceptAll Tools.reNoMatches Tools.reKeepOriginal
          Tools.editWitnessParams "alpha\nbeta\n" = Except.ok "alpha\ngamma\n" ∧
      "alpha\ngamma\n" ≠ "alpha\nbeta\n" ∧
      Tools.editWitnessParams.expectedOriginalSha256 ≠ "" ∧
      Tools.editWitnessParams.expectedOriginalSha256
        = SHA256.sha256Hex "alpha\nbeta\n") ∧
    (Tools.handleEdit Tools.reAcceptAll Tools.reNoMatches Tools.reKeepOriginal
        Tools.editWitnessParams "alpha\nbeta\n").applied = true ∧
    (Tools.handleEdit Tools.reAcceptAll Tools.reNoMatches Tools.reKeepOriginal
        Tools.editWitnessParams "alpha\nbeta\n").newContent = "alpha\ngamma\n" := by
  have hok : Tools.computeEdit Tools.reAcceptAll Tools.reNoMatches
      Tools.reKeepOriginal Tools.editWitnessParams "alpha\nbeta\n"
        = Except.ok "alpha\ngamma\n" := by decide
  have hhash : Tools.editWitnessParams.expectedOriginalSha256
      = SHA256.sha256Hex "alpha\nbeta\n" := by decide
  have happ := (((workspaceEdit_apply_gate Tools.reAcceptAll Tools.reNoMatches
      Tools.reKeepOriginal Tools.editWitnessParams "alpha\nbeta\n" rfl).1
        "alpha\ngamma\n" hok).1 (by decide)).mpr ⟨by decide, hhash⟩
  exact ⟨⟨rfl, hok, by decide, by decide, hhash⟩, happ.1, happ.2⟩

/-- `String.mk` exposes its character list. -/
theorem mk_data (l : List Char) : (String.mk l).data = l := rfl

/-- The delimiter string is the single pipe character. -/
theorem pipe_data : ("|" : String).data = ['|'] := rfl

/-- `digitChar` never produces the delimiter or the minus sign. -/
theorem digitChar_not_special (m : Nat) :
    Api.digitChar m ≠ '|' ∧ Api.digitChar m ≠ '-' := by
  unfold Api.digitChar
  split <;> exact ⟨by decide, by decide⟩

/-- Every character of a decimal rendering is a digit (in particular
neither the delimiter nor the minus sign). -/
theorem natDigitsAux_not_special :
    ∀ (fuel n : Nat) (c : Char), c ∈ Api.natDigitsAux fuel n →
      c ≠ '|' ∧ c ≠ '-' := by
  intro fuel
  induction fuel with
  | zero => intro n c hc; cases hc
  | succ fuel ih =>
      intro n c hc
      by_cases h : n < 10
      · simp [Api.natDigitsAux, h] at hc
        subst hc
        exact digitChar_not_special n
      · simp [Api.natDigitsAux, h] at hc
        rcases hc with hc | hc
        · exact ih (n / 10) c hc
        · subst hc
          exact digitChar_not_special (n % 10)

/-- `digitsVal` of a rendering extended by one digit. -/
theorem digitsVal_append_digit (l : List Char) (c : Char) :
    Api.digitsVal (l ++ [c]) = Api.digitsVal l * 10 + (c.toNat - 48) := by
  simp [Api.digitsVal, List.foldl_append]

/-- The code of a digit character. -/
theorem digitChar_toNat (m : Nat) (hm : m < 10) :
    (Api.digitChar m).toNat = 48 + m := by
  interval_cases m <;> decide

/-- The decimal rendering evaluates back to its number. -/
theorem natDigitsAux_val :
    ∀ fuel n, n < fuel → Api.digitsVal (Api.natDigitsAux fuel n) = n := by
  intro fuel
  induction fuel with
  | zero => intro n h; omega
  | succ fuel ih =>
      intro n hn
      by_cases h : n < 10
      · rw [show Api.natDigitsAux (fuel + 1) n = [Api.digitChar n] from by
          simp [Api.natDigitsAux, h]]
        simp [Api.digitsVal]
        rw [digitChar_toNat n h]
        omega
      · rw [show Api.natDigitsAux (fuel + 1) n
            = Api.natDigitsAux fuel (n / 10) ++ [Api.digitChar (n % 10)] from by
          simp [Api.natDigitsAux, h]]
        rw [digitsVal_append_digit, ih (n / 10) (by omega),
          digitChar_toNat (n % 10) (by omega)]
        omega

/-- Decimal renderings of naturals are injective. -/
theorem natDigits_inj (m n : Nat) (h : Api.natDigits m = Api.natDigits n) :
    m = n := by
  have hm : Api.digitsVal (Api.natDigits m) = m := natDigitsAux_val (m + 1) m (by omega)
  have hn : Api.digitsVal (Api.natDigits n) = n := natDigitsAux_val (n + 1) n (by omega)
  rw [← hm, ← hn, h]

/-- Decimal renderings of Go ints are injective. -/
theorem intRepr_inj (a b : Int) (h : Api.intRepr a = Api.intRepr b) : a = b := by
  have hd := congrArg String.data h
  cases a with
  | ofNat m =>
      cases b with
      | ofNat n =>
          simp only [Api.intRepr, mk_data] at hd
          exact congrArg Int.ofNat (natDigits_inj m n hd)
      | negSucc n =>
          simp only [Api.intRepr, mk_data] at hd
          have hmem : '-' ∈ Api.natDigits m := by
            rw [hd]
            exact List.mem_cons_self _ _
          exact absurd rfl (natDigitsAux_not_special (m + 1) m '-' hmem).2
  | negSucc m =>
      cases b with
      | ofNat n =>
          simp only [Api.intRepr, mk_data] at hd
          have hmem : '-' ∈ Api.natDigits n := by
            rw [← hd]
            exact List.mem_cons_self _ _
          exact absurd rfl (natDigitsAux_not_special (n + 1) n '-' hmem).2
      | negSucc n =>
          simp only [Api.intRepr, mk_data, List.cons.injEq, true_and] at hd
          have := natDigits_inj (m + 1) (n + 1) hd
          have hmn : m = n := by omega
          rw [hmn]

/-- Decimal renderings never contain the delimiter. -/
theorem intRepr_pipeFree (i : Int) : Api.pipeFree (Api.intRepr i) := by
  unfold Api.pipeFree
  cases i with
  | ofNat n =>
      intro hm
      rw [show (Api.intRepr (Int.ofNat n)).data = Api.natDigits n from rfl] at hm
      exact (natDigitsAux_not_special (n + 1) n '|' hm).1 rfl
  | negSucc n =>
      intro hm
      rw [show (Api.intRepr (Int.negSucc n)).data
          = '-' :: Api.natDigits (n + 1) from rfl] at hm
      rcases List.mem_cons.mp hm with h | h
      · exact absurd h (by decide)
      · exact (natDigitsAux_not_special (n + 2) (n + 1) '|' h).1 rfl

/-- Splitting a pipe-delimited character list at its first delimiter
is unambiguous when the leading field is pipe-free. -/
theorem pipe_split :
    ∀ (a b r s : List Char), '|' ∉ a → '|' ∉ b →
      a ++ '|' :: r = b ++ '|' :: s → a = b ∧ r = s := by
  intro a
  induction a with
  | nil =>
      intro b r s _ hb h
      cases b with
      | nil =>
          rw [List.nil_append, List.nil_append] at h
          injection h with _ h2
          exact ⟨rfl, h2⟩
      | cons c b' =>
          rw [List.nil_append, List.cons_append] at h
          injection h with h1 h2
          subst h1
          exact absurd (List.mem_cons_self _ _) hb
  | cons c a' ih =>
      intro b r s ha hb h
      cases b with
      | nil =>
          rw [List.cons_append, List.nil_append] at h
          injection h with h1 h2
          subst h1
          exact absurd (List.mem_cons_self _ _) ha
      | cons d b' =>
          rw [List.cons_append, List.cons_append] at h
          injection h with h1 h2
          subst h1
          have ha' : '|' ∉ a' := fun hm => ha (List.mem_cons_of_mem _ hm)
          have hb' : '|' ∉ b' := fun hm => hb (List.mem_cons_of_mem _ hm)
          obtain ⟨he, hr⟩ := ih b' r s ha' hb' h2
          exact ⟨by rw [he], hr⟩

/-- String-level form of `pipe_split`. -/
theorem pipe_split_str (x y : String) (r s : List Char)
    (hx : Api.pipeFree x) (hy : Api.pipeFree y)
    (h : x.data ++ '|' :: r = y.data ++ '|' :: s) : x = y ∧ r = s := by
  obtain ⟨h1, h2⟩ := pipe_split x.data y.data r s hx hy h
  exact ⟨String.ext h1, h2⟩

/-- Equal pipe-free canonical run strings force equal rendered field
tuples. -/
theorem runSignatureInput_inj (r r' : Api.RunFields)
    (h1 : Api.pipeFree r.id) (h1' : Api.pipeFree r'.id)
    (h2 : Api.pipeFree r.status) (h2' : Api.pipeFree r'.status)
    (h3 : Api.pipeFree (Api.derefString r.summary))
    (h3' : Api.pipeFree (Api.derefString r'.summary))
    (h4 : Api.pipeFree (Api.derefString r.error))
    (h4' : Api.pipeFree (Api.derefString r'.error))
    (h : Api.runSignatureInput r = Api.runSignatureInput r') :
    r.id = r'.id ∧ r.status = r'.status ∧
      Api.derefString r.summary = Api.derefString r'.summary ∧
      Api.derefString r.error = Api.derefString r'.error ∧
      r.updatedAt = r'.updatedAt := by
  have hd := congrArg String.data h
  simp only [Api.runSignatureInput, String.data_append, pipe_data,
    List.append_assoc, List.singleton_append] at hd
  obtain ⟨e1, hd⟩ := pipe_split_str _ _ _ _ h1 h1' hd
  obtain ⟨e2, hd⟩ := pipe_split_str _ _ _ _ h2 h2' hd
  obtain ⟨e3, hd⟩ := pipe_split_str _ _ _ _ h3 h3' hd
  obtain ⟨e4, hd⟩ := pipe_split_str _ _ _ _ h4 h4' hd
  exact ⟨e1, e2, e3, e4, String.ext hd⟩

/-- Equal pipe-free canonical step strings force equal rendered field
tuples (including the numeric `step_num`, whose decimal rendering is
always pipe-free and injective). -/
theorem stepSignatureInput_inj (s s' : Api.StepFields)
    (h1 : Api.pipeFree s.id) (h1' : Api.pipeFree s'.id)
    (h3 : Api.pipeFree s.phase) (h3' : Api.pipeFree s'.phase)
    (h4 : Api.pipeFree s.status) (h4' : Api.pipeFree s'.status)
    (h5 : Api.pipeFree (Api.derefString s.tool))
    (h5' : Api.pipeFree (Api.derefString s'.tool))
    (h6 : Api.pipeFree s.toolInput) (h6' : Api.pipeFree s'.toolInput)
    (h7 : Api.pipeFree s.toolOutput) (h7' : Api.pipeFree s'.toolOutput)
    (h8 : Api.pipeFree (Api.derefString s.error))
    (h8' : Api.pipeFree (Api.derefString s'.error))
    (h9 : Api.pipeFree (Api.derefTime s.startedAt))
    (h9' : Api.pipeFree (Api.derefTime s'.startedAt))
    (h : Api.stepSignatureInput s = Api.stepSignatureInput s') :
    s.id = s'.id ∧ s.stepNum = s'.stepNum ∧ s.phase = s'.phase ∧
      s.status = s'.status ∧ Api.derefString s.tool = Api.derefString s'.tool ∧
      s.toolInput = s'.toolInput ∧ s.toolOutput = s'.toolOutput ∧
      Api.derefString s.error = Api.derefString s'.error ∧
      Api.derefTime s.startedAt = Api.derefTime s'.startedAt ∧
      Api.derefTime s.completedAt = Api.derefTime s'.completedAt := by
  have hd := congrArg String.data h
  simp only [Api.stepSignatureInput, String.data_append, pipe_data,
    List.append_assoc, List.singleton_append] at hd
  obtain ⟨e1, hd⟩ := pipe_split_str _ _ _ _ h1 h1' hd
  obtain ⟨e2, hd⟩ := pipe_split_str _ _ _ _ (intRepr_pipeFree s.stepNum)
    (intRepr_pipeFree s'.stepNum) hd
  obtain ⟨e3, hd⟩ := pipe_split_str _ _ _ _ h3 h3' hd
  obtain ⟨e4, hd⟩ := pipe_split_str _ _ _ _ h4 h4' hd
  obtain ⟨e5, hd⟩ := pipe_split_str _ _ _ _ h5 h5' hd
  obtain ⟨e6, hd⟩ := pipe_split_str _ _ _ _ h6 h6' hd
  obtain ⟨e7, hd⟩ := pipe_split_str _ _ _ _ h7 h7' hd
  obtain ⟨e8, hd⟩ := pipe_split_str _ _ _ _ h8 h8' hd
  obtain ⟨e9, hd⟩ := pipe_split_str _ _ _ _ h9 h9' hd
  exact ⟨e1, intRepr_inj _ _ e2, e3, e4, e5, e6, e7, e8, e9, String.ext hd⟩

/-- C9 counterexample: two runs with different field tuples (summary
`"|"` versus `""`, error `""` versus `"|"`) produce the same canonical
string and hence the same fingerprint — the delimiter is not escaped,
so "unequal tuples ⇒ unequal fingerprints" fails. -/
theorem runStreamSignature_pipe_collision :
    Api.cexRunA.summary ≠ Api.cexRunB.summary ∧
    Api.runSignatureInput Api.cexRunA = Api.runSignatureInput Api.cexRunB ∧
    Api.runStreamSignature Api.cexRunA = Api.runStreamSignature Api.cexRunB := by
  refine ⟨by decide, by decide, ?_⟩
  exact congrArg SHA256.sha256Hex (by decide)

/-- C9 (amended): fingerprints are pure functions of exactly the
listed rendered fields — equal rendered tuples give equal fingerprints
for both runs and steps (in particular the fingerprint is stable
across pointer identity, and absent values render as empty strings) —
and, conversely, two runs (or steps) whose listed rendered fields are
pipe-free and whose canonical signature strings agree have identical
rendered tuples; tuples differing in a listed field therefore yield
different canonical strings whenever the fields avoid the `|`
delimiter (with embedded delimiters distinct tuples can collide). -/
theorem fingerprint_spec :
    (∀ r r' : Api.RunFields,
      r.id = r'.id → r.status = r'.status →
      Api.derefString r.summary = Api.derefString r'.summary →
      Api.derefString r.error = Api.derefString r'.error →
      r.updatedAt = r'.updatedAt →
      Api.runStreamSignature r = Api.runStreamSignature r') ∧
    (∀ s s' : Api.StepFields,
      s.id = s'.id → s.stepNum = s'.stepNum → s.phase = s'.phase →
      s.status = s'.status →
      Api.derefString s.tool = Api.derefString s'.tool →
      s.toolInput = s'.toolInput → s.toolOutput = s'.toolOutput →
      Api.derefString s.error = Api.derefString s'.error →
      Api.derefTime s.startedAt = Api.derefTime s'.startedAt →
      Api.derefTime s.completedAt = Api.derefTime s'.completedAt →
      Api.stepStreamSignature s = Api.stepStreamSignature s') ∧
    (∀ r r' : Api.RunFields,
      Api.pipeFree r.id → Api.pipeFree r'.id →
      Api.pipeFree r.status → Api.pipeFree r'.status →
      Api.pipeFree (Api.derefString r.summary) →
      Api.pipeFree (Api.derefString r'.summary) →
      Api.pipeFree (Api.derefString r.error) →
      Api.pipeFree (Api.derefString r'.error) →
      Api.runSignatureInput r = Api.runSignatureInput r' →
      r.id = r'.id ∧ r.status = r'.status ∧
        Api.derefString r.summary = Api.derefString r'.summary ∧
        Api.derefString r.error = Api.derefString r'.error ∧
        r.updatedAt = r'.updatedAt) ∧
    (∀ s s' : Api.StepFields,
      Api.pipeFree s.id → Api.pipeFree s'.id →
      Api.pipeFree s.phase → Api.pipeFree s'.phase →
      Api.pipeFree s.status → Api.pipeFree s'.status →
      Api.pipeFree (Api.derefString s.tool) →
      Api.pipeFree (Api.derefString s'.tool) →
      Api.pipeFree s.toolInput → Api.pipeFree s'.toolInput →
      Api.pipeFree s.toolOutput → Api.pipeFree s'.toolOutput →
      Api.pipeFree (Api.derefString s.error) →
      Api.pipeFree (Api.derefString s'.error) →
      Api.pipeFree (Api.derefTime s.startedAt) →
      Api.pipeFree (Api.derefTime s'.startedAt) →
      Api.stepSignatureInput s = Api.stepSignatureInput s' →
      s.id = s'.id ∧ s.stepNum = s'.stepNum ∧ s.phase = s'.phase ∧
        s.status = s'.status ∧
        Api.derefString s.tool = Api.derefString s'.tool ∧
        s.toolInput = s'.toolInput ∧ s.toolOutput = s'.toolOutput ∧
        Api.derefString s.error = Api.derefString s'.error ∧
        Api.derefTime s.startedAt = Api.derefTime s'.startedAt ∧
        Api.derefTime s.completedAt = Api.derefTime s'.completedAt) := by
  refine ⟨?_, ?_, ?_, ?_⟩
  · intro r r' e1 e2 e3 e4 e5
    unfold Api.runStreamSignature Api.runSignatureInput
    rw [e1, e2, e3, e4, e5]
  · intro s s' e1 e2 e3 e4 e5 e6 e7 e8 e9 e10
    unfold Api.stepStreamSignature Api.stepSignatureInput
    rw [e1, e2, e3, e4, e5, e6, e7, e8, e9, e10]
  · intro r r' h1 h1' h2 h2' h3 h3' h4 h4' h
    exact runSignatureInput_inj r r' h1 h1' h2 h2' h3 h3' h4 h4' h
  · intro s s' h1 h1' h3 h3' h4 h4' h5 h5' h6 h6' h7 h7' h8 h8' h9 h9' h
    exact stepSignatureInput_inj s s' h1 h1' h3 h3' h4 h4' h5 h5' h6 h6'
      h7 h7' h8 h8' h9 h9' h

/-- C9 amended-claim witness: a run whose summary pointer is nil and
one whose summary is the empty string render identically, so the
theorem yields equal fingerprints; and the pipe-free injectivity
applied to two copies of the same run recovers the rendered tuple. -/
theorem fingerprint_spec_witness :
    (Api.witRunA.summary = none ∧ Api.witRunB.summary = some "" ∧
      Api.derefString Api.witRunA.summary = Api.derefString Api.witRunB.summary) ∧
    Api.runStreamSignature Api.witRunA = Api.runStreamSignature Api.witRunB ∧
    (Api.pipeFree Api.witRunA.id ∧
      Api.runSignatureInput Api.witRunA = Api.runSignatureInput Api.witRunA) ∧
    Api.witRunA.updatedAt = Api.witRunA.updatedAt :=
  ⟨⟨rfl, rfl, rfl⟩,
    fingerprint_spec.1 Api.witRunA Api.witRunB rfl rfl rfl rfl rfl,
    ⟨by unfold Api.pipeFree; decide, rfl⟩,
    (fingerprint_spec.2.2.1 Api.witRunA Api.witRunA
      (by unfold Api.pipeFree; decide) (by unfold Api.pipeFree; decide)
      (by unfold Api.pipeFree; decide) (by unfold Api.pipeFree; decide)
      (by unfold Api.pipeFree; decide) (by unfold Api.pipeFree; decide)
      (by unfold Api.pipeFree; decide) (by unfold Api.pipeFree; decide)
      rfl).2.2.2.2⟩

/-- Overwriting a key makes it readable. -/
theorem lookupPair_setPair_self {α : Type} (l : List (String × α))
    (k : String) (v : α) :
    MergeState.lookupPair (MergeState.setPair l k v) k = some v := by
  induction l with
  | nil => simp [MergeState.setPair, MergeState.lookupPair]
  | cons p rest ih =>
      obtain ⟨k', v'⟩ := p
      by_cases h : k' = k
      · simp [MergeState.setPair, MergeState.lookupPair, h]
      · simp [MergeState.setPair, MergeState.lookupPair, h, ih]

/-- Overwriting a key leaves every other key unchanged. -/
theorem lookupPair_setPair_ne {α : Type} (l : List (String × α))
    (k k' : String) (v : α) (hne : k' ≠ k) :
    MergeState.lookupPair (MergeState.setPair l k v) k'
      = MergeState.lookupPair l k' := by
  induction l with
  | nil =>
      have h : ¬ k = k' := fun hc => hne hc.symm
      simp [MergeState.setPair, MergeState.lookupPair, h]
  | cons p rest ih =>
      obtain ⟨k0, v0⟩ := p
      by_cases h : k0 = k
      · subst h
        have hk : ¬ k0 = k' := fun hc => hne hc.symm
        simp [MergeState.setPair, MergeState.lookupPair, hk]
      · simp [MergeState.setPair, MergeState.lookupPair, h, ih]

/-- A key absent from an association list reads as `none`. -/
theorem lookupPair_none_of_not_mem {α : Type} (l : List (String × α))
    (k : String) (hk : k ∉ l.map Prod.fst) :
    MergeState.lookupPair l k = none := by
  induction l with
  | nil => rfl
  | cons p rest ih =>
      obtain ⟨k0, v0⟩ := p
      simp only [List.map_cons, List.mem_cons] at hk
      push_neg at hk
      have h0 : k0 ≠ k := fun hc => hk.1 hc.symm
      simp [MergeState.lookupPair, h0, ih hk.2]

/-- Keys not mentioned by `updated_state` are preserved verbatim by
the merge. -/
theorem mergeStateJSON_lookup_not_mem (U : List (String × MergeState.JVal)) :
    ∀ (E : List (String × MergeState.JVal)) (k : String),
      k ∉ U.map Prod.fst →
      MergeState.lookupPair (MergeState.mergeStateJSON E U) k
        = MergeState.lookupPair E k := by
  induction U with
  | nil => intro E k _; rfl
  | cons p rest ih =>
      intro E k hk
      obtain ⟨k0, v0⟩ := p
      simp only [List.map_cons, List.mem_cons] at hk
      push_neg at hk
      show MergeState.lookupPair
          (MergeState.mergeStateJSON
            (MergeState.setPair E k0 (MergeState.mergeValue E k0 v0)) rest) k
        = MergeState.lookupPair E k
      rw [ih _ k hk.2]
      exact lookupPair_setPair_ne E k0 k _ hk.1

/-- `mergeValue` only consults the accumulator through the merged
key's current value. -/
theorem mergeValue_congr (acc E : List (String × MergeState.JVal))
    (k : String) (v : MergeState.JVal)
    (h : MergeState.lookupPair acc k = MergeState.lookupPair E k) :
    MergeState.mergeValue acc k v = MergeState.mergeValue E k v := by
  unfold MergeState.mergeValue
  rw [h]

/-- For a decoded (duplicate-free) `updated_state`, every mentioned
key ends up holding `mergeValue` of its existing value and the update:
the merge switch applied against the pre-merge state. -/
theorem mergeStateJSON_lookup_mem (U : List (String × MergeState.JVal)) :
    ∀ (E : List (String × MergeState.JVal)) (k : String)
      (v : MergeState.JVal),
      (U.map Prod.fst).Nodup → (k, v) ∈ U →
      MergeState.lookupPair (MergeState.mergeStateJSON E U) k
        = some (MergeState.mergeValue E k v) := by
  induction U with
  | nil => intro E k v _ hm; cases hm
  | cons p rest ih =>
      intro E k v hnd hm
      obtain ⟨k0, v0⟩ := p
      simp only [List.map_cons, List.nodup_cons] at hnd
      rcases List.mem_cons.mp hm with he | hm'
      · cases he
        show MergeState.lookupPair
            (MergeState.mergeStateJSON
              (MergeState.setPair E k (MergeState.mergeValue E k v)) rest) k
          = some (MergeState.mergeValue E k v)
        rw [mergeStateJSON_lookup_not_mem rest _ k hnd.1]
        exact lookupPair_setPair_self E k _
      · have hk0 : k ≠ k0 := by
          intro he
          subst he
          exact hnd.1 (List.mem_map_of_mem Prod.fst hm')
        show MergeState.lookupPair
            (MergeState.mergeStateJSON
              (MergeState.setPair E k0 (MergeState.mergeValue E k0 v0)) rest) k
          = some (MergeState.mergeValue E k v)
        rw [ih _ k v hnd.2 hm']
        rw [mergeValue_congr _ E k v (lookupPair_setPair_ne E k0 k _ hk0)]

/-- Characterization of the shared dedup pass: membership is exactly
"occurs in the input, non-empty, not previously seen". -/
theorem dedupSkipEmpty_mem (l : List String) :
    ∀ (seen : List String) (s : String),
      s ∈ MergeState.dedupSkipEmpty seen l ↔ (s ∈ l ∧ s ≠ "" ∧ s ∉ seen) := by
  induction l with
  | nil => intro seen s; simp [MergeState.dedupSkipEmpty]
  | cons t rest ih =>
      intro seen s
      by_cases h : t = "" ∨ t ∈ seen
      · rw [show MergeState.dedupSkipEmpty seen (t :: rest)
            = MergeState.dedupSkipEmpty seen rest from by
          simp [MergeState.dedupSkipEmpty, h]]
        rw [ih seen s]
        constructor
        · rintro ⟨h1, h2, h3⟩
          exact ⟨List.mem_cons_of_mem _ h1, h2, h3⟩
        · rintro ⟨h1, h2, h3⟩
          rcases List.mem_cons.mp h1 with he | h1'
          · subst he
            rcases h with h | h
            · exact absurd h h2
            · exact absurd h h3
          · exact ⟨h1', h2, h3⟩
      · rw [show MergeState.dedupSkipEmpty seen (t :: rest)
            = t :: MergeState.dedupSkipEmpty (t :: seen) rest from by
          simp [MergeState.dedupSkipEmpty, h]]
        push_neg at h
        constructor
        · intro hmem
          rcases List.mem_cons.mp hmem with he | hmem'
          · subst he
            exact ⟨List.mem_cons_self _ _, h.1, h.2⟩
          · obtain ⟨h1, h2, h3⟩ := (ih (t :: seen) s).mp hmem'
            have h3' : s ∉ seen := fun hc => h3 (List.mem_cons_of_mem _ hc)
            exact ⟨List.mem_cons_of_mem _ h1, h2, h3'⟩
        · rintro ⟨h1, h2, h3⟩
          by_cases he : s = t
          · subst he
            exact List.mem_cons_self _ _
          · rcases List.mem_cons.mp h1 with he' | h1'
            · exact absurd he' he
            · refine List.mem_cons_of_mem _ ((ih (t :: seen) s).mpr ⟨h1', h2, ?_⟩)
              intro hc
              rcases List.mem_cons.mp hc with hc' | hc'
              · exact he hc'
              · exact h3 hc'

/-- The dedup pass is duplicate-free. -/
theorem dedupSkipEmpty_nodup (l : List String) :
    ∀ seen : List String, (MergeState.dedupSkipEmpty seen l).Nodup := by
  induction l with
  | nil => intro seen; simp [MergeState.dedupSkipEmpty]
  | cons t rest ih =>
      intro seen
      by_cases h : t = "" ∨ t ∈ seen
      · rw [show MergeState.dedupSkipEmpty seen (t :: rest)
            = MergeState.dedupSkipEmpty seen rest from by
          simp [MergeState.dedupSkipEmpty, h]]
        exact ih seen
      · rw [show MergeState.dedupSkipEmpty seen (t :: rest)
            = t :: MergeState.dedupSkipEmpty (t :: seen) rest from by
          simp [MergeState.dedupSkipEmpty, h]]
        refine List.nodup_cons.mpr ⟨?_, ih (t :: seen)⟩
        intro hmem
        exact ((dedupSkipEmpty_mem rest (t :: seen) t).mp hmem).2.2
          (List.mem_cons_self _ _)

/-- The dedup pass preserves the order of first appearance: its output
is a sublist of its input. -/
theorem dedupSkipEmpty_sublist (l : List String) :
    ∀ seen : List String,
      List.Sublist (MergeState.dedupSkipEmpty seen l) l := by
  induction l with
  | nil => intro seen; simp [MergeState.dedupSkipEmpty]
  | cons t rest ih =>
      intro seen
      by_cases h : t = "" ∨ t ∈ seen
      · rw [show MergeState.dedupSkipEmpty seen (t :: rest)
            = MergeState.dedupSkipEmpty seen rest from by
          simp [MergeState.dedupSkipEmpty, h]]
        exact List.Sublist.cons t (ih seen)
      · rw [show MergeState.dedupSkipEmpty seen (t :: rest)
            = t :: MergeState.dedupSkipEmpty (t :: seen) rest from by
          simp [MergeState.dedupSkipEmpty, h]]
        exact List.Sublist.cons₂ t (ih (t :: seen))

/-- `mergeObject` reads as "updated wins per key, existing otherwise"
for decoded (duplicate-free) updated objects. -/
theorem mergeObject_lookup (u : List (String × MergeState.JVal)) :
    ∀ (e : List (String × MergeState.JVal)) (k : String),
      (u.map Prod.fst).Nodup →
      MergeState.lookupPair (MergeState.mergeObject e u) k
        = match MergeState.lookupPair u k with
          | some v => some v
          | none => MergeState.lookupPair e k := by
  induction u with
  | nil => intro e k _; rfl
  | cons p u' ih =>
      intro e k hnd
      obtain ⟨k0, v0⟩ := p
      simp only [List.map_cons, List.nodup_cons] at hnd
      show MergeState.lookupPair
          (MergeState.mergeObject (MergeState.setPair e k0 v0) u') k = _
      rw [ih _ k hnd.2]
      by_cases h : k0 = k
      · subst h
        rw [lookupPair_none_of_not_mem u' k0 hnd.1]
        rw [lookupPair_setPair_self]
        simp [MergeState.lookupPair]
      · rw [lookupPair_setPair_ne e k0 k v0 (fun hc => h hc.symm)]
        simp [MergeState.lookupPair, h]

/-- Todo entries with missing ids are appended unconditionally —
on every application of the merge. -/
theorem mergeTodoLoop_all_missing (u : List (List (String × MergeState.JVal))) :
    ∀ (acc : List (List (String × MergeState.JVal)))
      (idx : List (String × Nat)),
      (∀ item ∈ u, MergeState.todoId item = "") →
      MergeState.mergeTodoLoop acc idx u = acc ++ u := by
  induction u with
  | nil => intro acc idx _; simp [MergeState.mergeTodoLoop]
  | cons item rest ih =>
      intro acc idx hall
      have h0 : MergeState.todoId item = "" := hall item (List.mem_cons_self _ _)
      rw [show MergeState.mergeTodoLoop acc idx (item :: rest)
          = MergeState.mergeTodoLoop (acc ++ [item]) idx rest from by
        simp [MergeState.mergeTodoLoop, h0]]
      rw [ih (acc ++ [item]) idx
        (fun it hit => hall it (List.mem_cons_of_mem _ hit))]
      simp

/-- A todo entry whose non-empty id is indexed field-merges in place. -/
theorem mergeTodoLoop_known_id (acc : List (List (String × MergeState.JVal)))
    (idx : List (String × Nat)) (item : List (String × MergeState.JVal))
    (rest : List (List (String × MergeState.JVal))) (i : Nat)
    (hid : MergeState.todoId item ≠ "")
    (hidx : MergeState.lookupPair idx (MergeState.todoId item) = some i) :
    MergeState.mergeTodoLoop acc idx (item :: rest)
      = MergeState.mergeTodoLoop
          (acc.set i (MergeState.mergeObject (acc.getD i []) item)) idx rest := by
  simp [MergeState.mergeTodoLoop, hid, hidx]

/-- A todo entry with a new non-empty id is appended and indexed. -/
theorem mergeTodoLoop_new_id (acc : List (List (String × MergeState.JVal)))
    (idx : List (String × Nat)) (item : List (String × MergeState.JVal))
    (rest : List (List (String × MergeState.JVal)))
    (hid : MergeState.todoId item ≠ "")
    (hidx : MergeState.lookupPair idx (MergeState.todoId item) = none) :
    MergeState.mergeTodoLoop acc idx (item :: rest)
      = MergeState.mergeTodoLoop (acc ++ [item])
          (MergeState.setPair idx (MergeState.todoId item) acc.length) rest := by
  simp [MergeState.mergeTodoLoop, hid, hidx]

/-- C7 counterexample: merging
`{"evidence": [], "todo": []}` with
`{"evidence": ["a","a"], "todo": [{"task":"x"}]}` keeps the duplicate
evidence string (the dedup pass is skipped when the existing list is
empty), and applying the same merge a second time changes the result
again (the id-less todo entry is appended once more and the evidence
list is now deduplicated) — so the merge is neither duplicate-free
nor idempotent as claimed. -/
theorem mergeState_counterexample :
    MergeState.lookupPair
        (MergeState.mergeStateJSON MergeState.cexExisting MergeState.cexUpdated)
        "evidence"
      = some (MergeState.JVal.arr [MergeState.JVal.str "a", MergeState.JVal.str "a"]) ∧
    MergeState.evidenceLen
        (MergeState.mergeStateJSON MergeState.cexExisting MergeState.cexUpdated) = 2 ∧
    MergeState.todoLen
        (MergeState.mergeStateJSON MergeState.cexExisting MergeState.cexUpdated) = 1 ∧
    MergeState.evidenceLen
        (MergeState.mergeStateJSON
          (MergeState.mergeStateJSON MergeState.cexExisting MergeState.cexUpdated)
          MergeState.cexUpdated) = 1 ∧
    MergeState.todoLen
        (MergeState.mergeStateJSON
          (MergeState.mergeStateJSON MergeState.cexExisting MergeState.cexUpdated)
          MergeState.cexUpdated) = 2 ∧
    MergeState.mergeStateJSON
        (MergeState.mergeStateJSON MergeState.cexExisting MergeState.cexUpdated)
        MergeState.cexUpdated
      ≠ MergeState.mergeStateJSON MergeState.cexExisting MergeState.cexUpdated := by
  refine ⟨rfl, rfl, rfl, rfl, rfl, ?_⟩
  intro h
  have hlen := congrArg MergeState.evidenceLen h
  exact absurd hlen (by decide)

/-- C7 (amended): the reflect state merge behaves as follows.  Every
key of a decoded `updated_state` ends up holding the merge switch's
value computed against the pre-merge state, and unmentioned keys are
preserved; in particular every key other than `todo`/`evidence`/
`notes` is overwritten with the updated value.  `evidence` and `notes`
are merged duplicate-free in order of first appearance with empty
strings dropped only when both the existing and the updated list are
non-empty; when either side is empty the other is returned verbatim
(entries trimmed, duplicates and empty strings kept).  `todo` merges
by id: an entry whose non-empty id is already indexed field-merges
into the indexed entry in place (updated fields win), an entry with a
new id is appended and indexed, and an entry with a missing id is
appended unconditionally on every merge — so the merge is idempotent
only in the absence of id-less updated entries and of empty-sided
list merges. -/
theorem mergeState_spec :
    (∀ (E U : List (String × MergeState.JVal)) (k : String)
        (v : MergeState.JVal),
      (U.map Prod.fst).Nodup → (k, v) ∈ U →
      MergeState.lookupPair (MergeState.mergeStateJSON E U) k
        = some (MergeState.mergeValue E k v)) ∧
    (∀ (E U : List (String × MergeState.JVal)) (k : String),
      k ∉ U.map Prod.fst →
      MergeState.lookupPair (MergeState.mergeStateJSON E U) k
        = MergeState.lookupPair E k) ∧
    (∀ (E U : List (String × MergeState.JVal)) (k : String)
        (v : MergeState.JVal),
      k ≠ "todo" → k ≠ "evidence" → k ≠ "notes" →
      (U.map Prod.fst).Nodup → (k, v) ∈ U →
      MergeState.lookupPair (MergeState.mergeStateJSON E U) k = some v) ∧
    (∀ ev uv : MergeState.JVal,
      MergeState.toStringList ev ≠ [] → MergeState.toStringList uv ≠ [] →
      (MergeState.mergeStringLists ev uv).Nodup ∧
      "" ∉ MergeState.mergeStringLists ev uv ∧
      (∀ s, s ∈ MergeState.mergeStringLists ev uv ↔
        (s ∈ MergeState.toStringList ev ++ MergeState.toStringList uv ∧ s ≠ "")) ∧
      List.Sublist (MergeState.mergeStringLists ev uv)
        (MergeState.toStringList ev ++ MergeState.toStringList uv)) ∧
    (∀ ev uv : MergeState.JVal,
      (MergeState.toStringList ev = [] →
        MergeState.mergeStringLists ev uv = MergeState.toStringList uv) ∧
      (MergeState.toStringList uv = [] →
        MergeState.mergeStringLists ev uv = MergeState.toStringList ev)) ∧
    (∀ (u acc : List (List (String × MergeState.JVal)))
        (idx : List (String × Nat)),
      (∀ item ∈ u, MergeState.todoId item = "") →
      MergeState.mergeTodoLoop acc idx u = acc ++ u) ∧
    (∀ (u e : List (String × MergeState.JVal)) (k : String),
      (u.map Prod.fst).Nodup →
      MergeState.lookupPair (MergeState.mergeObject e u) k
        = match MergeState.lookupPair u k with
          | some v => some v
          | none => MergeState.lookupPair e k) := by
  refine ⟨?_, ?_, ?_, ?_, ?_, ?_, ?_⟩
  · intro E U k v hnd hm
    exact mergeStateJSON_lookup_mem U E k v hnd hm
  · intro E U k hk
    exact mergeStateJSON_lookup_not_mem U E k hk
  · intro E U k v h1 h2 h3 hnd hm
    rw [mergeStateJSON_lookup_mem U E k v hnd hm]
    simp [MergeState.mergeValue, h1, h2, h3]
  · intro ev uv hne hnu
    have heq : MergeState.mergeStringLists ev uv
        = MergeState.dedupSkipEmpty []
            (MergeState.toStringList ev ++ MergeState.toStringList uv) := by
      simp [MergeState.mergeStringLists, hne, hnu]
    refine ⟨?_, ?_, ?_, ?_⟩
    · rw [heq]; exact dedupSkipEmpty_nodup _ []
    · rw [heq]
      intro hmem
      exact ((dedupSkipEmpty_mem _ [] "").mp hmem).2.1 rfl
    · intro s
      rw [heq, dedupSkipEmpty_mem]
      simp
    · rw [heq]; exact dedupSkipEmpty_sublist _ []
  · intro ev uv
    constructor
    · intro h
      simp [MergeState.mergeStringLists, h]
    · intro h
      by_cases he : MergeState.toStringList ev = []
      · simp [MergeState.mergeStringLists, he, h]
      · simp [MergeState.mergeStringLists, he, h]
  · intro u acc idx hall
    exact mergeTodoLoop_all_missing u acc idx hall
  · intro u e k hnd
    exact mergeObject_lookup u e k hnd

/-- C7 amended-claim witness: merging non-empty evidence lists dedups
and drops empties; an unrelated key is overwritten; an id-less todo
list is appended verbatim. -/
theorem mergeState_spec_witness :
    (MergeState.toStringList
        (MergeState.JVal.arr [MergeState.JVal.str "a", MergeState.JVal.str ""]) ≠ [] ∧
      MergeState.toStringList
        (MergeState.JVal.arr [MergeState.JVal.str "a", MergeState.JVal.str "b"]) ≠ []) ∧
    (MergeState.mergeStringLists
        (MergeState.JVal.arr [MergeState.JVal.str "a", MergeState.JVal.str ""])
        (MergeState.JVal.arr [MergeState.JVal.str "a", MergeState.JVal.str "b"])).Nodup ∧
    "" ∉ MergeState.mergeStringLists
        (MergeState.JVal.arr [MergeState.JVal.str "a", MergeState.JVal.str ""])
        (MergeState.JVal.arr [MergeState.JVal.str "a", MergeState.JVal.str "b"]) ∧
    ((("goal", MergeState.JVal.str "g2") ∈
        ([("goal", MergeState.JVal.str "g2")] : List (String × MergeState.JVal)) ∧
      (([("goal", MergeState.JVal.str "g2")] :
          List (String × MergeState.JVal)).map Prod.fst).Nodup) ∧
      MergeState.lookupPair
        (MergeState.mergeStateJSON [("goal", MergeState.JVal.str "g1")]
          [("goal", MergeState.JVal.str "g2")]) "goal"
        = some (MergeState.JVal.str "g2")) := by
  have hne : MergeState.toStringList
      (MergeState.JVal.arr [MergeState.JVal.str "a", MergeState.JVal.str ""]) ≠ [] := by
    decide
  have hnu : MergeState.toStringList
      (MergeState.JVal.arr [MergeState.JVal.str "a", MergeState.JVal.str "b"]) ≠ [] := by
    decide
  have hs := mergeState_spec.2.2.2.1 _ _ hne hnu
  refine ⟨⟨hne, hnu⟩, hs.1, hs.2.1, ⟨⟨List.mem_cons_self _ _, by simp⟩, ?_⟩⟩
  exact mergeState_spec.2.2.1 [("goal", MergeState.JVal.str "g1")]
    [("goal", MergeState.JVal.str "g2")] "goal" (MergeState.JVal.str "g2")
    (by decide) (by decide) (by decide) (by simp) (List.mem_cons_self _ _)

end AgenticLoop
